import Mathlib

/-
Shallow embedding of the file-upload-service handlers
(handlers/file_handler.go, handlers/bucket_handler.go,
handlers/public_file_handler.go) and proofs about them.

Strings are modelled at the character level; Go operates on UTF-8 bytes,
which agrees with the character level for the ASCII separators and
metacharacters involved here.  Randomness (token generation), timestamps
and logging are irrelevant to the verified properties: fresh tokens and
ids are passed in as parameters, and log calls are dropped.  Fallible
external effects (multipart parsing, mkdir, create, copy, remove, the
per-id UPDATE) are driven by explicit oracle parameters so that every
control-flow branch of the source is represented.
-/

namespace FUS

/-- hasPref a s is true iff a is a (character) prefix of s,
mirroring strings.HasPrefix. -/
def hasPref : List Char → List Char → Bool
  | [], _ => true
  | _ :: _, [] => false
  | a :: as, b :: bs => a == b && hasPref as bs

/-- splitOnChar c s splits s at every occurrence of c, mirroring
strings.Split with a one-character separator.  The result is always
non-empty. -/
def splitOnChar (c : Char) : List Char → List (List Char)
  | [] => [[]]
  | x :: xs =>
    match splitOnChar c xs with
    | [] => [[]]
    | h :: t => if x = c then [] :: h :: t else (x :: h) :: t

/-- One step of the Clean element stack of Go path/filepath.Clean:
empty and dot elements are dropped, dotdot pops a previous element
(or is kept when there is nothing to pop on a relative path), any
other element is pushed.  The stack is kept reversed. -/
def cleanStack (rooted : Bool) : List (List Char) → List (List Char) → List (List Char)
  | stack, [] => stack.reverse
  | stack, seg :: rest =>
    if seg = [] ∨ seg = ['.'] then cleanStack rooted stack rest
    else if seg = ['.', '.'] then
      match stack with
      | [] => if rooted then cleanStack rooted [] rest else cleanStack rooted [seg] rest
      | top :: stack' =>
        if top = ['.', '.'] then cleanStack rooted (seg :: top :: stack') rest
        else cleanStack rooted stack' rest
    else cleanStack rooted (seg :: stack) rest

/-- goCleanL is Go path/filepath.Clean on the slash separator, at the
character-list level. -/
def goCleanL (p : List Char) : List Char :=
  if p = [] then ['.']
  else
    let rooted := p.head? = some '/'
    let out := cleanStack rooted [] (splitOnChar '/' p)
    if rooted then '/' :: List.intercalate ['/'] out
    else if out = [] then ['.']
    else List.intercalate ['/'] out

/-- goClean is Go path/filepath.Clean (Unix separator). -/
def goClean (p : String) : String := String.mk (goCleanL p.data)

/-- goJoin is Go path/filepath.Join: drop leading empty elements, join
the rest with the separator, and Clean the result; all-empty input
yields the empty string. -/
def goJoin (elems : List String) : String :=
  match elems.dropWhile (· = "") with
  | [] => ""
  | rest => goClean (String.intercalate "/" rest)

/-- goJoin2 joins two path elements, as in filepath.Join(a, b). -/
def goJoin2 (a b : String) : String := goJoin [a, b]

/-- goJoin3 joins three path elements, as in filepath.Join(a, b, c). -/
def goJoin3 (a b c : String) : String := goJoin [a, b, c]

/-- trimSlashes mirrors strings.Trim(s, "/"): remove leading and
trailing slash characters. -/
def trimSlashes (s : String) : String :=
  String.mk (((s.data.dropWhile (· = '/')).reverse.dropWhile (· = '/')).reverse)

/-- starMatch f s tries to split s into a gap of zero or more non-slash
characters followed by a remainder accepted by the continuation f; it is
the one-star step of the anchored regex built in bucket_handler.go. -/
def starMatch (f : List Char → Bool) : List Char → Bool
  | [] => f []
  | x :: s' => f (x :: s') || (decide (x ≠ '/') && starMatch f s')

/-- wildMatch ps s decides whether candidate s matches pattern ps under
the anchored semantics of the regex built by matchPattern in
bucket_handler.go: a star consumes a run of zero or more characters
other than the slash, every other pattern character matches literally,
and the whole candidate must be consumed. -/
def wildMatch : List Char → List Char → Bool
  | [], s => s.isEmpty
  | c :: ps, s =>
    if c = '*' then starMatch (wildMatch ps) s
    else
      match s with
      | [] => false
      | x :: s' => x == c && wildMatch ps s'

/-- WildSpec states the claimed pattern semantics declaratively: a star
matches a run of zero or more characters excluding the slash, any other
character matches literally, anchored at both ends. -/
def WildSpec : List Char → List Char → Prop
  | [], s => s = []
  | c :: ps, s =>
    if c = '*' then ∃ g r, s = g ++ r ∧ (∀ x ∈ g, x ≠ '/') ∧ WildSpec ps r
    else ∃ r, s = c :: r ∧ WildSpec ps r

/-- matchPattern mirrors matchPattern in bucket_handler.go: the three
hardcoded accelerator patterns match everything; otherwise the pattern
is compiled to an anchored regex in which a star becomes a run of
non-slash characters and all other characters are literal (the source
escapes regex metacharacters, so the compiled regex is exactly this
semantics). -/
def matchPattern (key pat : String) : Bool :=
  if pat = "*" ∨ pat = "*/*" ∨ pat = "**" then true
  else wildMatch pat.data key.data

/-- matchesPublicPath mirrors matchesPublicPath in bucket_handler.go:
true iff some pattern in the list matches the key. -/
def matchesPublicPath (key : String) (patterns : List String) : Bool :=
  patterns.any (fun p => matchPattern key p)

/-- PatternMatchesSpec is the claimed semantics of one pattern: either
an accelerator, or the anchored star-excluding-slash interpretation. -/
def PatternMatchesSpec (pat key : String) : Prop :=
  pat = "*" ∨ pat = "*/*" ∨ pat = "**" ∨ WildSpec pat.data key.data

/-- hasSuf a s is true iff a is a (character) suffix of s, mirroring
strings.HasSuffix. -/
def hasSuf (a s : List Char) : Bool := hasPref a.reverse s.reverse

/-- firstIdx q s is the index of the leftmost occurrence of q as a
contiguous run inside s, mirroring strings.Index. -/
def firstIdx (q : List Char) : List Char → Option Nat
  | [] => if hasPref q [] then some 0 else none
  | x :: s' => if hasPref q (x :: s') then some 0 else (firstIdx q s').map (· + 1)

/-- scanMids qs s is the middle-segments loop of matchWildcard in
public_file_handler.go: each segment is located leftmost in the
remaining text and the text after it becomes the new remainder. -/
def scanMids : List (List Char) → List Char → Bool
  | [], _ => true
  | q :: qs, s =>
    match firstIdx q s with
    | none => false
    | some i => scanMids qs (s.drop (i + q.length))

/-- matchWildcard mirrors matchWildcard in public_file_handler.go: the
pattern is split on the star; a pattern without a star must equal the
origin; otherwise the first segment must be a prefix of the origin, the
last segment a suffix of it, and the middle segments must occur in
order in the text after the first segment. -/
def matchWildcard (origin pat : List Char) : Bool :=
  match splitOnChar '*' pat with
  | [] => origin == pat
  | [_] => origin == pat
  | p :: q :: rest =>
    hasPref p origin && hasSuf ((q :: rest).getLastD []) origin &&
      scanMids ((q :: rest).dropLast) (origin.drop p.length)

/-- matchWildcardS is matchWildcard lifted to strings. -/
def matchWildcardS (origin pat : String) : Bool := matchWildcard origin.data pat.data

/-- isOriginAllowed mirrors isOriginAllowed in public_file_handler.go:
a literal star entry always allows, an entry equal to the origin
allows, and an entry containing a star allows when matchWildcard
accepts the origin. -/
def isOriginAllowed (origin : String) (allowedOrigins : List String) : Bool :=
  allowedOrigins.any (fun allowed =>
    allowed == "*" || allowed == origin ||
      (allowed.data.contains '*' && matchWildcardS origin allowed))

/-- AnySpec states the anchored wildcard interpretation in which a star
matches a run of zero or more arbitrary characters, slash included, and
every other character matches literally. -/
def AnySpec : List Char → List Char → Prop
  | [], s => s = []
  | c :: ps, s =>
    if c = '*' then ∃ g r, s = g ++ r ∧ AnySpec ps r
    else ∃ r, s = c :: r ∧ AnySpec ps r

/-- TailD qs s states that s consists of the segments qs in order, each
preceded by an arbitrary gap, with the last segment ending s. -/
def TailD : List (List Char) → List Char → Prop
  | [], s => s = []
  | q :: qs, s => ∃ g t, s = g ++ q ++ t ∧ TailD qs t

/-- PartsD parts s states that s decomposes into the star-split
segments of a pattern, with arbitrary gaps at the star positions. -/
def PartsD : List (List Char) → List Char → Prop
  | [], s => s = []
  | [p], s => s = p
  | p :: q :: qs, s => ∃ t, s = p ++ t ∧ TailD (q :: qs) t

/-- starMatchAny is starMatch without the separator restriction: the
gap may contain any characters. -/
def starMatchAny (f : List Char → Bool) : List Char → Bool
  | [] => f []
  | x :: s' => f (x :: s') || starMatchAny f s'

/-- anyMatch decides the anchored wildcard interpretation in which a
star matches an arbitrary run of characters. -/
def anyMatch : List Char → List Char → Bool
  | [], s => s.isEmpty
  | c :: ps, s =>
    if c = '*' then starMatchAny (anyMatch ps) s
    else
      match s with
      | [] => false
      | x :: s' => x == c && anyMatch ps s'

/-- UploadTokenData mirrors models.UploadTokenData: the payload stored
in the cache for an upload token. -/
structure UploadTokenData where
  fileID : String
  fileName : String
  fileSize : Int
  mimetype : String
  clientID : String
  bucketID : Int
  filePath : String
  ownerEntityType : String
  ownerEntityID : String
deriving DecidableEq

/-- DownloadTokenData mirrors models.DownloadTokenData. -/
structure DownloadTokenData where
  fileID : String
  fileName : String
  mimetype : String
  clientID : String
  bucketID : Int
  filePath : String
deriving DecidableEq

/-- CacheVal is a value stored in the TTL cache under a namespaced key. -/
inductive CacheVal
  | up (d : UploadTokenData)
  | down (d : DownloadTokenData)
deriving DecidableEq

/-- The TTL cache, as an association list from namespaced keys to
payloads; expiry is managed by the external cache and is not part of
the verified properties, so it is not modelled. -/
abbrev Cache := List (String × CacheVal)

def cacheGet (c : Cache) (k : String) : Option CacheVal :=
  (c.find? (fun e => e.1 == k)).map (·.2)

def cacheSet (c : Cache) (k : String) (v : CacheVal) : Cache :=
  (k, v) :: c.filter (fun e => e.1 != k)

def cacheDelete (c : Cache) (k : String) : Cache :=
  c.filter (fun e => e.1 != k)

/-- The filesystem, as the list of paths at which a regular file
exists; contents are not tracked because no verified property depends
on them. -/
abbrev Disk := List String

/-- insertPath models os.Create: afterwards a file exists at the path
(creating or truncating leaves membership identical). -/
def insertPath (p : String) (d : Disk) : Disk :=
  if d.contains p then d else p :: d

/-- ErrBody is the error payload written by the handlers, tagged by the
errs constructor used in the source. -/
inductive ErrBody
  | validation (msg : String)
  | authentication (msg : String)
  | authorization (msg : String)
  | notFound (msg : String)
  | internal (msg : String)
deriving DecidableEq

/-- CopyOutcome is the oracle outcome of an io.Copy call: either all
bytes were copied, or the copy failed after writing some bytes. -/
inductive CopyOutcome
  | ok (written : Int)
  | fail (written : Int)
deriving DecidableEq

/-- UploadOracle drives the fallible external steps of UploadFile:
multipart parsing, form file extraction (with the received size from
the form header), directory creation, file creation, and the copy. -/
structure UploadOracle where
  formParseOk : Bool
  formFileOk : Bool
  headerSize : Int
  mkdirOk : Bool
  createOk : Bool
  copy : CopyOutcome
deriving DecidableEq

/-- parseUploadTokenData models the re-marshal of the generic cached
value into models.UploadTokenData: a JSON round trip is lenient, so a
value of the other shape yields zero values for the missing fields. -/
def parseUploadTokenData : CacheVal → UploadTokenData
  | .up d => d
  | .down d =>
    { fileID := d.fileID, fileName := d.fileName, fileSize := 0,
      mimetype := d.mimetype, clientID := d.clientID, bucketID := d.bucketID,
      filePath := d.filePath, ownerEntityType := "", ownerEntityID := "" }

/-- parseDownloadTokenData models the re-marshal of the generic cached
value into models.DownloadTokenData. -/
def parseDownloadTokenData : CacheVal → DownloadTokenData
  | .down d => d
  | .up d =>
    { fileID := d.fileID, fileName := d.fileName, mimetype := d.mimetype,
      clientID := d.clientID, bucketID := d.bucketID, filePath := d.filePath }

/-- UploadResult is the response of the upload redemption handler. -/
inductive UploadResult
  | err (status : Nat) (body : ErrBody)
  | ok (fileID fileName : String) (written : Int) (bucketID : Int) (savedPath : String)
deriving DecidableEq

/-- uploadFile is UploadFile of handlers/file_handler.go: redeem an
upload token and write the received bytes to the resolved path.  The
returned triple is the response, the new cache, and the new disk. -/
def uploadFile (cache : Cache) (disk : Disk) (token : String) (ora : UploadOracle) :
    UploadResult × Cache × Disk :=
  if token = "" then (.err 400 (.validation "Missing upload token"), cache, disk)
  else
    match cacheGet cache ("upload:" ++ token) with
    | none => (.err 401 (.authentication "Invalid or expired upload token"), cache, disk)
    | some v =>
      let td := parseUploadTokenData v
      if ora.formParseOk = false then
        (.err 400 (.validation "Failed to parse upload form"), cache, disk)
      else if ora.formFileOk = false then
        (.err 400 (.validation "Missing file in upload"), cache, disk)
      else if td.fileSize < ora.headerSize then
        (.err 400 (.validation "File size exceeds allowed limit"), cache, disk)
      else
        let absFilePath := goJoin2 "./uploads" td.filePath
        if ora.mkdirOk = false then
          (.err 500 (.internal "Failed to prepare upload storage"), cache, disk)
        else if ora.createOk = false then
          (.err 500 (.internal "Failed to save file"), cache, disk)
        else
          let disk1 := insertPath absFilePath disk
          match ora.copy with
          | .fail _ => (.err 500 (.internal "Failed to save file"), cache, disk1)
          | .ok written =>
            (.ok td.fileID td.fileName written td.bucketID absFilePath,
             cacheDelete cache ("upload:" ++ token), disk1)

/-- DownloadResult is the response of the download redemption handler;
the stream outcome is carried in the success case because the source
has already written the 200 header when the stream runs. -/
inductive DownloadResult
  | err (status : Nat) (body : ErrBody)
  | ok (mimetype fileName : String) (streamFailed : Bool)
deriving DecidableEq

/-- downloadFile is DownloadFile of handlers/file_handler.go: redeem a
download token and stream the file at the resolved path.  The token is
deleted right after the file is opened, before streaming, so a failed
stream still consumes the token. -/
def downloadFile (cache : Cache) (disk : Disk) (token : String) (streamFailed : Bool) :
    DownloadResult × Cache × Disk :=
  if token = "" then (.err 400 (.validation "Missing download token"), cache, disk)
  else
    match cacheGet cache ("download:" ++ token) with
    | none => (.err 401 (.authentication "Invalid or expired download token"), cache, disk)
    | some v =>
      let td := parseDownloadTokenData v
      let filePath := goJoin2 "./uploads" td.filePath
      if disk.contains filePath = false then
        (.err 404 (.notFound "File not found"), cache, disk)
      else
        (.ok td.mimetype td.fileName streamFailed,
         cacheDelete cache ("download:" ++ token), disk)

/-- CORSRule mirrors models.CORSRule. -/
structure CORSRule where
  allowedOrigins : List String
  allowedMethods : List String
  allowedHeaders : List String
  exposeHeaders : List String
deriving DecidableEq

/-- BucketRow is a row of the buckets table; cors and public paths are
kept structured (their JSON encoding in the store always parses back to
what was validated on write). -/
structure BucketRow where
  id : Int
  name : String
  clientID : String
  corsPolicy : List CORSRule
  publicPaths : List String
  archived : Int
deriving DecidableEq

/-- ClientRow is a row of the clients table. -/
structure ClientRow where
  clientID : String
  name : String
deriving DecidableEq

/-- FileRow is a row of the files table; deleted is the tombstone. -/
structure FileRow where
  id : String
  fileName : String
  fileSize : Int
  mimetype : String
  clientID : String
  bucketID : Int
  key : String
  ownerEntityType : String
  ownerEntityID : String
  deleted : Bool
deriving DecidableEq

/-- Db is the relational store. -/
structure Db where
  buckets : List BucketRow
  clients : List ClientRow
  files : List FileRow
deriving DecidableEq

def findBucket (db : Db) (id : Int) : Option BucketRow :=
  db.buckets.find? (fun b => b.id == id)

def findBucketByName (db : Db) (nm : String) : Option BucketRow :=
  db.buckets.find? (fun b => b.name == nm)

def findClientName (db : Db) (cid : String) : Option String :=
  (db.clients.find? (fun c => c.clientID == cid)).map (·.name)

/-- CreateSignedURLRequest mirrors models.CreateSignedURLRequest. -/
structure CreateSignedURLRequest where
  bucketID : Int
  key : String
  fileName : String
  fileSize : Int
  mimetype : String
  ownerEntityType : String
  ownerEntityID : String
deriving DecidableEq

/-- SignedResult is the response of both issuance handlers. -/
inductive SignedResult
  | err (status : Nat) (body : ErrBody)
  | ok (fileID signedURL : String)
deriving DecidableEq

/-- generateSignedURL is GenerateSignedURL of handlers/file_handler.go:
validate the request, check bucket ownership and archival, resolve the
storage path from the client and bucket names currently in the store,
insert the file row, and store the token payload in the cache.  The
fresh uuid and random token are passed in; insertOk and cacheSetOk
drive the two fallible writes. -/
def generateSignedURL (db : Db) (cache : Cache) (auth : Option String)
    (req : CreateSignedURLRequest) (fileID uploadToken : String)
    (insertOk cacheSetOk : Bool) : SignedResult × Db × Cache :=
  if req.bucketID ≤ 0 then
    (.err 400 (.validation "bucket_id is required and must be a positive integer"), db, cache)
  else if req.key = "" then (.err 400 (.validation "key is required"), db, cache)
  else if req.fileName = "" then (.err 400 (.validation "file_name is required"), db, cache)
  else if req.fileSize ≤ 0 then
    (.err 400 (.validation "file_size must be greater than 0"), db, cache)
  else if req.mimetype = "" then (.err 400 (.validation "mimetype is required"), db, cache)
  else if req.ownerEntityType = "" then
    (.err 400 (.validation "owner_entity_type is required"), db, cache)
  else if req.ownerEntityID = "" then
    (.err 400 (.validation "owner_entity_id is required"), db, cache)
  else
    match auth with
    | none => (.err 401 (.authentication "Authentication required"), db, cache)
    | some clientID =>
      match findBucket db req.bucketID with
      | none => (.err 404 (.notFound "Bucket not found"), db, cache)
      | some b =>
        if b.clientID ≠ clientID then
          (.err 403 (.authorization "Access denied: bucket does not belong to your account"),
           db, cache)
        else if b.archived ≠ 0 then
          (.err 409 (.validation "Cannot upload to an archived bucket"), db, cache)
        else
          match findClientName db clientID with
          | none => (.err 500 (.internal "Failed to fetch client information"), db, cache)
          | some clientName =>
            let filePath := goJoin3 clientName b.name req.key
            if insertOk = false then
              (.err 500 (.internal "Failed to create file record"), db, cache)
            else
              let newRow : FileRow :=
                { id := fileID, fileName := req.fileName, fileSize := req.fileSize,
                  mimetype := req.mimetype, clientID := clientID, bucketID := req.bucketID,
                  key := req.key, ownerEntityType := req.ownerEntityType,
                  ownerEntityID := req.ownerEntityID, deleted := false }
              let db' : Db := { db with files := db.files ++ [newRow] }
              let td : UploadTokenData :=
                { fileID := fileID, fileName := req.fileName, fileSize := req.fileSize,
                  mimetype := req.mimetype, clientID := clientID, bucketID := req.bucketID,
                  filePath := filePath, ownerEntityType := req.ownerEntityType,
                  ownerEntityID := req.ownerEntityID }
              if cacheSetOk = false then
                (.err 500 (.internal "Failed to generate signed URL"), db', cache)
              else
                (.ok fileID ("http://localhost:8080/files/upload?token=" ++ uploadToken),
                 db', cacheSet cache ("upload:" ++ uploadToken) (.up td))

/-- findFileJoin models the download issuance query of
handlers/file_handler.go: the non-deleted file row by id, inner-joined
to the owning client and bucket names. -/
def findFileJoin (db : Db) (fileID : String) : Option (FileRow × String × String) :=
  match db.files.find? (fun f => f.id == fileID && !f.deleted) with
  | none => none
  | some f =>
    match findClientName db f.clientID, findBucket db f.bucketID with
    | some cn, some b => some (f, cn, b.name)
    | _, _ => none

/-- generateDownloadSignedURL is GenerateDownloadSignedURL of
handlers/file_handler.go: look up the file with its owning names,
check ownership and on-disk existence, and store the payload carrying
the resolved path. -/
def generateDownloadSignedURL (db : Db) (cache : Cache) (disk : Disk)
    (auth : Option String) (fileID downloadToken : String) (cacheSetOk : Bool) :
    SignedResult × Cache :=
  if fileID = "" then (.err 400 (.validation "file_id is required"), cache)
  else
    match auth with
    | none => (.err 401 (.authentication "Authentication required"), cache)
    | some clientID =>
      match findFileJoin db fileID with
      | none => (.err 404 (.notFound "File not found"), cache)
      | some (f, clientName, bucketName) =>
        if f.clientID ≠ clientID then (.err 403 (.authorization "Access denied"), cache)
        else
          let resolvedFilePath := goJoin3 clientName bucketName f.key
          if disk.contains (goJoin2 "./uploads" resolvedFilePath) = false then
            (.err 404 (.notFound "File content not found"), cache)
          else
            let td : DownloadTokenData :=
              { fileID := f.id, fileName := f.fileName, mimetype := f.mimetype,
                clientID := clientID, bucketID := f.bucketID, filePath := resolvedFilePath }
            if cacheSetOk = false then
              (.err 500 (.internal "Failed to generate download URL"), cache)
            else
              (.ok f.id ("http://localhost:8080/files/download?token=" ++ downloadToken),
               cacheSet cache ("download:" ++ downloadToken) (.down td))

def c8Db : Db :=
  { buckets := [{ id := 1, name := "b", clientID := "c1", corsPolicy := [],
                  publicPaths := [], archived := 1 }],
    clients := [{ clientID := "c1", name := "cli" }], files := [] }

def c8Req : CreateSignedURLRequest :=
  { bucketID := 1, key := "k", fileName := "f", fileSize := 5, mimetype := "m",
    ownerEntityType := "t", ownerEntityID := "o" }

def c9TD : UploadTokenData :=
  { fileID := "f1", fileName := "doc.pdf", fileSize := 10, mimetype := "application/pdf",
    clientID := "c1", bucketID := 1, filePath := "cli/buck/doc.pdf",
    ownerEntityType := "user", ownerEntityID := "u1" }

def c1TD : UploadTokenData :=
  { fileID := "f1", fileName := "doc.pdf", fileSize := 10, mimetype := "application/pdf",
    clientID := "c1", bucketID := 1, filePath := "cli/buck/doc.pdf",
    ownerEntityType := "user", ownerEntityID := "u1" }

def c1Cache : Cache := [("upload:tok", .up c1TD)]

def c1OraFail : UploadOracle :=
  { formParseOk := true, formFileOk := true, headerSize := 5,
    mkdirOk := true, createOk := true, copy := .fail 5 }

def c1OraRetry : UploadOracle :=
  { formParseOk := true, formFileOk := true, headerSize := 5,
    mkdirOk := true, createOk := true, copy := .ok 5 }

def c1DTD : DownloadTokenData :=
  { fileID := "f1", fileName := "doc.pdf", mimetype := "application/pdf",
    clientID := "c1", bucketID := 1, filePath := "cli/buck/doc.pdf" }

def c2Db : Db :=
  { buckets := [{ id := 1, name := "buck", clientID := "c1", corsPolicy := [],
                  publicPaths := [], archived := 0 }],
    clients := [{ clientID := "c1", name := "cli" }], files := [] }

def c2Req : CreateSignedURLRequest :=
  { bucketID := 1, key := "x//y", fileName := "y", fileSize := 10,
    mimetype := "text/plain", ownerEntityType := "user", ownerEntityID := "u1" }

/-- likeCharEq is the character comparison of the default SQLite LIKE:
ASCII-case-insensitive equality. -/
def likeCharEq (p c : Char) : Bool := p.toLower == c.toLower

/-- likeM decides the SQLite LIKE operator: a percent matches any run
of characters, an underscore any single character, and every other
character matches ASCII-case-insensitively. -/
def likeM : List Char → List Char → Bool
  | [], s => s.isEmpty
  | p :: ps, s =>
    if p = '%' then starMatchAny (likeM ps) s
    else if p = '_' then
      match s with
      | [] => false
      | _ :: s' => likeM ps s'
    else
      match s with
      | [] => false
      | c :: s' => likeCharEq p c && likeM ps s'

/-- insertLE inserts an element into a list before the first element
it compares at most equal to. -/
def insertLE (le : α → α → Bool) (a : α) : List α → List α
  | [] => [a]
  | b :: l => if le a b then a :: b :: l else b :: insertLE le a l

/-- sortLE is insertion sort by the Bool order le; it models the ORDER
BY of the SQL fetch (the ordering is produced by the store, not by the
Go source, so any sorting algorithm with the same result is
faithful). -/
def sortLE (le : α → α → Bool) : List α → List α
  | [] => []
  | a :: l => insertLE le a (sortLE le l)

/-- rowKeyLE compares rows by key in codepoint-lexicographic order,
the binary collation of ORDER BY key ASC. -/
def rowKeyLE (a b : FileRow) : Bool := decide (a.key.data ≤ b.key.data)

/-- strDataLE compares strings in codepoint-lexicographic order. -/
def strDataLE (a b : String) : Bool := decide (a.data ≤ b.data)

/-- dbListQuery is the SQL fetch of ListFiles in the source: the
non-deleted rows of the bucket whose key is non-empty (root) or
matches key LIKE path/percent, ordered by key ascending. -/
def dbListQuery (files : List FileRow) (bucketID : Int) (path : String) : List FileRow :=
  sortLE rowKeyLE
    (files.filter (fun f => f.bucketID == bucketID && !f.deleted &&
      (if path = "" then f.key != "" else likeM (path ++ "/%").data f.key.data)))

/-- listPre is the prefix the row loop strips: empty at the root,
path plus a slash otherwise. -/
def listPre (path : String) : List Char :=
  (if path = "" then "" else path ++ "/").data

/-- scanFiles is the direct-file half of the row loop of ListFiles:
keys whose remainder after the prefix is non-empty and has no slash. -/
def scanFiles (pre : List Char) (rows : List FileRow) : List FileRow :=
  rows.filter (fun f => hasPref pre f.key.data &&
    f.key.data.drop pre.length != [] &&
    !(f.key.data.drop pre.length).contains '/')

/-- scanFolderSegs is the subfolder half of the row loop: the first
segment of each remainder that still contains a slash. -/
def scanFolderSegs (pre : List Char) (rows : List FileRow) : List String :=
  rows.filterMap (fun f =>
    if hasPref pre f.key.data && (f.key.data.drop pre.length != []) &&
        (f.key.data.drop pre.length).contains '/' then
      some (String.mk ((f.key.data.drop pre.length).takeWhile (· ≠ '/')))
    else none)

/-- dedupSort models collecting folder names into a set and sorting
them: deduplicate, then sort ascending. -/
def dedupSort (l : List String) : List String :=
  sortLE strDataLE l.dedup

/-- listFiles is the listing core of ListFiles in the source (the code
after the bucket checks): fetch, split each row into a direct file or
a first-segment folder, and return files in fetch order and folders
sorted and deduplicated. -/
def listFiles (files : List FileRow) (bucketID : Int) (path : String) :
    List FileRow × List String :=
  let rows := dbListQuery files bucketID path
  let pre := listPre path
  (scanFiles pre rows, dedupSort (scanFolderSegs pre rows))

/-- ListResult is the response of the listing endpoint. -/
inductive ListResult
  | err (status : Nat) (body : ErrBody)
  | ok (bucketID : Int) (path : String) (files : List FileRow) (folders : List String)
deriving DecidableEq

/-- listFilesHandler is ListFiles of the source: trim slashes from the
requested path, require auth, bucket existence, ownership and
non-archival, then run the listing core. -/
def listFilesHandler (db : Db) (auth : Option String) (bucketID : Int)
    (rawPath : String) : ListResult :=
  let path := trimSlashes rawPath
  match auth with
  | none => .err 401 (.authentication "Authentication required")
  | some clientID =>
    if clientID = "" then .err 401 (.authentication "Authentication required")
    else
      match findBucket db bucketID with
      | none => .err 404 (.notFound "Bucket not found")
      | some b =>
        if b.clientID ≠ clientID then
          .err 403 (.authorization "Access denied: bucket does not belong to your account")
        else if b.archived ≠ 0 then
          .err 409 (.validation "Cannot list files in an archived bucket")
        else
          let out := listFiles db.files bucketID path
          .ok bucketID path out.1 out.2

/-- RemoveOracle drives the fallible per-target steps of removeFiles:
rmFail p means os.Remove at path p fails with an error other than
NotExist; updFail id means the tombstone UPDATE for that id fails. -/
structure RemoveOracle where
  rmFail : String → Bool
  updFail : String → Bool

/-- removePath models a successful os.Remove. -/
def removePath (p : String) (d : Disk) : Disk := d.filter (fun q => q != p)

/-- RemTag is the classification of one target in removeFiles. -/
inductive RemTag
  | del
  | miss
  | fail
deriving DecidableEq

/-- removeStep classifies one target as removeFiles does: no record
means missing; os.Remove on an absent file means missing; another
remove error means failed; a failed tombstone UPDATE after a
successful removal means failed (the file is gone from disk
regardless); otherwise deleted. -/
def removeStep (ora : RemoveOracle) (records : String → Option String)
    (disk : Disk) (id : String) : RemTag × Disk :=
  match records id with
  | none => (.miss, disk)
  | some p =>
    if disk.contains p = false then (.miss, disk)
    else if ora.rmFail p then (.fail, disk)
    else if ora.updFail id then (.fail, removePath p disk)
    else (.del, removePath p disk)

/-- removeFiles is removeFiles of the source: classify every requested
id independently, threading the disk state, and return the deleted,
missing, and failed id lists. -/
def removeFiles (ora : RemoveOracle) :
    List String → (String → Option String) → Disk →
      (List String × List String × List String) × Disk
  | [], _, disk => (([], [], []), disk)
  | id :: rest, records, disk =>
    let step := removeStep ora records disk id
    let out := removeFiles ora rest records step.2
    match step.1 with
    | .del => ((id :: out.1.1, out.1.2.1, out.1.2.2), out.2)
    | .miss => ((out.1.1, id :: out.1.2.1, out.1.2.2), out.2)
    | .fail => ((out.1.1, out.1.2.1, id :: out.1.2.2), out.2)

/-- DeleteResult is the response of the deletion endpoint. -/
inductive DeleteResult
  | err (status : Nat) (body : ErrBody)
  | ok (deleted missing failed : List String)
deriving DecidableEq

/-- recordsFor models the id-to-disk-path map built by
deleteFilesByIDs: the non-deleted row of the client with that id,
restricted to the requested ids, joined to its client and bucket
names. -/
def recordsFor (db : Db) (clientID : String) (fileIDs : List String) :
    String → Option String :=
  fun id =>
    match db.files.find? (fun f => f.id == id && f.clientID == clientID &&
        !f.deleted && fileIDs.contains f.id) with
    | none => none
    | some f =>
      match findClientName db f.clientID, findBucket db f.bucketID with
      | some cn, some b => some (goJoin ["./uploads", cn, b.name, f.key])
      | _, _ => none

/-- deleteFilesByIDs is deleteFilesByIDs of the source: build the
records map with one query and hand the requested ids to
removeFiles. -/
def deleteFilesByIDs (db : Db) (disk : Disk) (ora : RemoveOracle) (queryOk : Bool)
    (clientID : String) (fileIDs : List String) : DeleteResult × Disk :=
  if queryOk = false then (.err 500 (.internal "Failed to delete files"), disk)
  else
    let out := removeFiles ora fileIDs (recordsFor db clientID fileIDs) disk
    (.ok out.1.1 out.1.2.1 out.1.2.2, out.2)

/-- pathRecordsRows models the recursive fetch of deleteFilesByPath:
the non-deleted rows of the owned bucket whose key matches the SQL
LIKE pattern built from the slash-trimmed path, joined to client and
bucket names, yielding id and disk path per row. -/
def pathRecordsRows (db : Db) (clientID : String) (B : Int) (pathT : String) :
    List (String × String) :=
  db.files.filterMap (fun f =>
    if f.bucketID == B && f.clientID == clientID && !f.deleted &&
        likeM (pathT ++ "/%").data f.key.data then
      match findClientName db f.clientID, findBucket db f.bucketID with
      | some cn, some b => some (f.id, goJoin ["./uploads", cn, b.name, f.key])
      | _, _ => none
    else none)

/-- deleteFilesByPath is deleteFilesByPath of the source: trim the
path, check bucket existence, ownership and non-archival, fetch the
matching rows, reject an empty match set as a ValidationError, and
otherwise remove the matched targets. -/
def deleteFilesByPath (db : Db) (disk : Disk) (ora : RemoveOracle) (queryOk : Bool)
    (clientID : String) (B : Int) (rawPath : String) : DeleteResult × Disk :=
  let path := trimSlashes rawPath
  match findBucket db B with
  | none => (.err 404 (.notFound "Bucket not found"), disk)
  | some b =>
    if b.clientID ≠ clientID then
      (.err 403 (.authorization "Access denied: bucket does not belong to your account"),
       disk)
    else if b.archived ≠ 0 then
      (.err 409 (.validation "Cannot delete files in an archived bucket"), disk)
    else if queryOk = false then (.err 500 (.internal "Failed to delete files"), disk)
    else
      let rows := pathRecordsRows db clientID B path
      let fileIDs := rows.map (·.1)
      if fileIDs = [] then
        (.err 400 (.validation "No files found at the given path"), disk)
      else
        let out := removeFiles ora fileIDs
          (fun id => (rows.find? (fun r => r.1 == id)).map (·.2)) disk
        (.ok out.1.1 out.1.2.1 out.1.2.2, out.2)

/-- DirectRem states that the key of a row is the listing prefix
followed by a non-empty remainder without a slash: a direct file of
the listed level. -/
def DirectRem (pre : List Char) (f : FileRow) : Prop :=
  ∃ t, f.key.data = pre ++ t ∧ t ≠ [] ∧ '/' ∉ t

/-- SubRem states that the key of a row is the listing prefix followed
by a remainder containing a slash whose first segment is s: an
immediate subfolder name of the listed level. -/
def SubRem (pre : List Char) (f : FileRow) (s : String) : Prop :=
  ∃ t, f.key.data = pre ++ t ∧ t ≠ [] ∧ '/' ∈ t ∧ s = String.mk (t.takeWhile (· ≠ '/'))

/-- goExtLoop scans the characters of a path from the end: the
extension starts at the last dot of the last path element. -/
def goExtLoop : List Char → List Char → String
  | [], _ => ""
  | c :: rest, acc =>
    if c = '/' then ""
    else if c = '.' then String.mk (c :: acc)
    else goExtLoop rest (c :: acc)

/-- goExt is Go path/filepath.Ext. -/
def goExt (p : String) : String := goExtLoop p.data.reverse []

/-- lowerExt mirrors strings.ToLower on the extension (ASCII case). -/
def lowerExt (e : String) : String := String.mk (e.data.map Char.toLower)

/-- getContentTypeFromExtension mirrors the extension switch of
public_file_handler.go. -/
def getContentTypeFromExtension (ext : String) : String :=
  let e := lowerExt ext
  if e = ".jpg" ∨ e = ".jpeg" then "image/jpeg"
  else if e = ".png" then "image/png"
  else if e = ".gif" then "image/gif"
  else if e = ".svg" then "image/svg+xml"
  else if e = ".webp" then "image/webp"
  else if e = ".pdf" then "application/pdf"
  else if e = ".txt" then "text/plain"
  else if e = ".html" ∨ e = ".htm" then "text/html"
  else if e = ".css" then "text/css"
  else if e = ".js" then "application/javascript"
  else if e = ".json" then "application/json"
  else if e = ".xml" then "application/xml"
  else if e = ".mp4" then "video/mp4"
  else if e = ".webm" then "video/webm"
  else if e = ".mp3" then "audio/mpeg"
  else if e = ".wav" then "audio/wav"
  else "application/octet-stream"

/-- CORSHeaders is the set of CORS response headers the handler may
emit. -/
structure CORSHeaders where
  allowOrigin : String
  vary : String
  methods : Option String
  headers : Option String
  expose : Option String
deriving DecidableEq

def joinComma (l : List String) : String := String.intercalate ", " l

/-- applyCORSHeaders mirrors applyCORSHeaders of
public_file_handler.go: the first rule whose allowed origins admit the
request origin contributes the headers; an absent origin emits none. -/
def applyCORSHeaders (origin : String) (rules : List CORSRule) : Option CORSHeaders :=
  if origin = "" then none
  else
    match rules.find? (fun rule => isOriginAllowed origin rule.allowedOrigins) with
    | none => none
    | some rule =>
      some { allowOrigin := origin, vary := "Origin",
             methods := if rule.allowedMethods.length > 0 then
                 some (joinComma rule.allowedMethods) else none,
             headers := if rule.allowedHeaders.length > 0 then
                 some (joinComma rule.allowedHeaders) else none,
             expose := if rule.exposeHeaders.length > 0 then
                 some (joinComma rule.exposeHeaders) else none }

/-- PublicResult is the response of the public file endpoint. -/
inductive PublicResult
  | err (status : Nat) (body : ErrBody)
  | ok (contentType : String) (cors : Option CORSHeaders)
deriving DecidableEq

/-- servePublicFile is ServePublicFile of public_file_handler.go; dirs
lists the paths that exist as directories (served as not found). -/
def servePublicFile (db : Db) (disk : Disk) (dirs : List String)
    (bucketName filePath origin : String) : PublicResult :=
  match findBucketByName db bucketName with
  | none => .err 404 (.notFound "Bucket not found")
  | some bucket =>
    if bucket.archived ≠ 0 then .err 404 (.notFound "Bucket not found")
    else if matchesPublicPath filePath bucket.publicPaths = false then
      .err 403 (.authorization "File is not publicly accessible")
    else
      match findClientName db bucket.clientID with
      | none => .err 500 (.internal "Failed to locate file")
      | some clientName =>
        let fullPath := goJoin ["./uploads", clientName, bucketName, filePath]
        if disk.contains fullPath = false then .err 404 (.notFound "File not found")
        else if dirs.contains fullPath then .err 404 (.notFound "File not found")
        else .ok (getContentTypeFromExtension (goExt filePath))
               (applyCORSHeaders origin bucket.corsPolicy)

def c10Db : Db :=
  { buckets := [{ id := 1, name := "arch", clientID := "c1", corsPolicy := [],
                  publicPaths := ["*"], archived := 1 }],
    clients := [{ clientID := "c1", name := "cli" }], files := [] }

def exRowA : FileRow :=
  { id := "1", fileName := "a.pdf", fileSize := 1, mimetype := "application/pdf",
    clientID := "c1", bucketID := 1, key := "a.pdf",
    ownerEntityType := "user", ownerEntityID := "u1", deleted := false }

def exRowX : FileRow :=
  { id := "2", fileName := "x.pdf", fileSize := 1, mimetype := "application/pdf",
    clientID := "c1", bucketID := 1, key := "reports/x.pdf",
    ownerEntityType := "user", ownerEntityID := "u1", deleted := false }

def exRowY : FileRow :=
  { id := "3", fileName := "y.pdf", fileSize := 1, mimetype := "application/pdf",
    clientID := "c1", bucketID := 1, key := "reports/2024/y.pdf",
    ownerEntityType := "user", ownerEntityID := "u1", deleted := false }

def c5Db : Db :=
  { buckets := [{ id := 1, name := "buck", clientID := "c1", corsPolicy := [],
                  publicPaths := [], archived := 0 }],
    clients := [{ clientID := "c1", name := "cli" }],
    files := [exRowA, exRowX, exRowY] }

def c6Db : Db :=
  { buckets := [{ id := 1, name := "buck", clientID := "c1", corsPolicy := [],
                  publicPaths := [], archived := 0 }],
    clients := [{ clientID := "c1", name := "cli" }],
    files := [{ id := "a", fileName := "k", fileSize := 1, mimetype := "m",
                clientID := "c1", bucketID := 1, key := "k",
                ownerEntityType := "u", ownerEntityID := "1", deleted := false }] }

def c7Db : Db :=
  { buckets := [{ id := 1, name := "buck", clientID := "c1", corsPolicy := [],
                  publicPaths := [], archived := 0 }],
    clients := [{ clientID := "c1", name := "cli" }],
    files := [{ id := "fa", fileName := "x", fileSize := 1, mimetype := "m",
                clientID := "c1", bucketID := 1, key := "a/x",
                ownerEntityType := "u", ownerEntityID := "1", deleted := false }] }

theorem hasPref_iff (a s : List Char) : hasPref a s = true ↔ ∃ t, s = a ++ t := by
  induction a generalizing s with
  | nil => simp [hasPref]
  | cons x as ih =>
    cases s with
    | nil => simp [hasPref]
    | cons b bs =>
      simp only [hasPref, Bool.and_eq_true, beq_iff_eq, ih, List.cons_append, List.cons.injEq]
      constructor
      · rintro ⟨rfl, t, rfl⟩; exact ⟨t, rfl, rfl⟩
      · rintro ⟨t, rfl, rfl⟩; exact ⟨rfl, t, rfl⟩

theorem splitOnChar_ne_nil (c : Char) (s : List Char) : splitOnChar c s ≠ [] := by
  cases s with
  | nil => simp [splitOnChar]
  | cons x xs =>
    simp only [splitOnChar]
    cases h : splitOnChar c xs with
    | nil => simp
    | cons a t =>
      split
      · simp
      · split <;> simp

theorem starMatch_iff (f : List Char → Bool) (P : List Char → Prop)
    (hf : ∀ s, f s = true ↔ P s) (s : List Char) :
    starMatch f s = true ↔ ∃ g r, s = g ++ r ∧ (∀ x ∈ g, x ≠ '/') ∧ P r := by
  induction s with
  | nil =>
    simp only [starMatch, hf]
    constructor
    · intro hp
      exact ⟨[], [], rfl, by simp, hp⟩
    · rintro ⟨g, r, hgr, _, hr⟩
      obtain ⟨rfl, rfl⟩ := List.append_eq_nil.mp hgr.symm
      exact hr
  | cons x s' ih =>
    simp only [starMatch, Bool.or_eq_true, Bool.and_eq_true, decide_eq_true_eq, hf, ih]
    constructor
    · rintro (hp | ⟨hx, g, r, rfl, hg, hr⟩)
      · exact ⟨[], x :: s', rfl, by simp, hp⟩
      · refine ⟨x :: g, r, rfl, ?_, hr⟩
        intro y hy
        rcases List.mem_cons.mp hy with rfl | hy
        · exact hx
        · exact hg y hy
    · rintro ⟨g, r, hgr, hg, hr⟩
      cases g with
      | nil =>
        simp only [List.nil_append] at hgr
        subst hgr
        exact Or.inl hr
      | cons y g' =>
        simp only [List.cons_append, List.cons.injEq] at hgr
        obtain ⟨rfl, rfl⟩ := hgr
        refine Or.inr ⟨hg x (by simp), g', r, rfl, ?_, hr⟩
        intro z hz
        exact hg z (by simp [hz])

theorem wildMatch_iff (ps s : List Char) : wildMatch ps s = true ↔ WildSpec ps s := by
  induction ps generalizing s with
  | nil => simp [wildMatch, WildSpec, List.isEmpty_iff]
  | cons c ps' ih =>
    by_cases hc : c = '*'
    · subst hc
      simp only [wildMatch, WildSpec, if_pos rfl]
      exact starMatch_iff (wildMatch ps') (WildSpec ps') ih s
    · cases s with
      | nil => simp [wildMatch, WildSpec, hc]
      | cons x s' =>
        simp only [wildMatch, WildSpec, if_neg hc, Bool.and_eq_true, beq_iff_eq, ih,
          List.cons.injEq]
        constructor
        · rintro ⟨rfl, hw⟩
          exact ⟨s', ⟨rfl, rfl⟩, hw⟩
        · rintro ⟨r, ⟨rfl, rfl⟩, hw⟩
          exact ⟨rfl, hw⟩

theorem hasSuf_iff (a s : List Char) : hasSuf a s = true ↔ ∃ t, s = t ++ a := by
  rw [hasSuf, hasPref_iff]
  constructor
  · rintro ⟨t, ht⟩
    refine ⟨t.reverse, ?_⟩
    have := congrArg List.reverse ht
    simpa using this
  · rintro ⟨t, rfl⟩
    exact ⟨t.reverse, by simp⟩

theorem partsD_gap (h : List Char) (t : List (List Char)) (s : List Char) :
    (∃ g r, s = g ++ r ∧ PartsD (h :: t) r) ↔ TailD (h :: t) s := by
  cases t with
  | nil =>
    simp only [PartsD, TailD]
    constructor
    · rintro ⟨g, r, rfl, rfl⟩
      exact ⟨g, [], by simp, rfl⟩
    · rintro ⟨g, u, rfl, rfl⟩
      exact ⟨g, h, by simp, rfl⟩
  | cons q qs =>
    simp only [PartsD, TailD]
    constructor
    · rintro ⟨g, r, rfl, u, rfl, hu⟩
      exact ⟨g, u, by simp, hu⟩
    · rintro ⟨g, u, rfl, hu⟩
      exact ⟨g, h ++ u, by simp, u, rfl, hu⟩

theorem anySpec_iff_partsD (ps s : List Char) :
    AnySpec ps s ↔ PartsD (splitOnChar '*' ps) s := by
  induction ps generalizing s with
  | nil => simp [AnySpec, splitOnChar, PartsD]
  | cons c ps' ih =>
    obtain ⟨h, t, hsplit⟩ : ∃ h t, splitOnChar '*' ps' = h :: t := by
      cases hx : splitOnChar '*' ps' with
      | nil => exact absurd hx (splitOnChar_ne_nil '*' ps')
      | cons a b => exact ⟨a, b, rfl⟩
    by_cases hc : c = '*'
    · subst hc
      simp only [AnySpec, if_pos rfl, splitOnChar, hsplit]
      rw [show (∃ g r, s = g ++ r ∧ AnySpec ps' r) ↔
            (∃ g r, s = g ++ r ∧ PartsD (h :: t) r) from
          exists_congr fun g => exists_congr fun r => and_congr_right fun _ => by
            rw [ih, hsplit]]
      rw [partsD_gap]
      cases t with
      | nil => simp [PartsD, TailD]
      | cons q qs => simp [PartsD, TailD]
    · simp only [AnySpec, if_neg hc, splitOnChar, hsplit, if_neg hc]
      cases t with
      | nil =>
        simp only [PartsD]
        constructor
        · rintro ⟨r, rfl, hr⟩
          rw [ih, hsplit] at hr
          simp only [PartsD] at hr
          simp [hr]
        · rintro rfl
          refine ⟨ps'.take 0 ++ h, ?_, ?_⟩
          · simp
          · rw [ih, hsplit]
            simp [PartsD]
      | cons q qs =>
        simp only [PartsD]
        constructor
        · rintro ⟨r, rfl, hr⟩
          rw [ih, hsplit] at hr
          simp only [PartsD] at hr
          obtain ⟨u, rfl, hu⟩ := hr
          exact ⟨u, by simp, hu⟩
        · rintro ⟨u, hsu, hu⟩
          cases s with
          | nil => simp at hsu
          | cons x s' =>
            simp only [List.cons_append, List.cons.injEq] at hsu
            obtain ⟨rfl, rfl⟩ := hsu
            refine ⟨h ++ u, rfl, ?_⟩
            rw [ih, hsplit]
            exact ⟨u, rfl, hu⟩

theorem suffix_of_longer {u t v w : List Char} (h : u ++ t = v ++ w)
    (hl : t.length ≤ w.length) : ∃ g, w = g ++ t := by
  rcases List.append_eq_append_iff.mp h with ⟨a, _, hta⟩ | ⟨c, _, hwc⟩
  · have hh := congrArg List.length hta
    simp only [List.length_append] at hh
    have ha0 : a.length = 0 := by omega
    obtain rfl := List.length_eq_zero.mp ha0
    rw [List.nil_append] at hta
    exact ⟨[], by rw [List.nil_append, hta]⟩
  · exact ⟨c, hwc⟩

theorem firstIdx_pos (q s : List Char) (h : hasPref q s = true) :
    firstIdx q s = some 0 := by
  cases s <;> simp [firstIdx, h]

theorem firstIdx_complete :
    ∀ (g q t s : List Char), s = g ++ (q ++ t) →
      ∃ i, firstIdx q s = some i ∧ ∃ g', s.drop (i + q.length) = g' ++ t := by
  intro g
  induction g with
  | nil =>
    intro q t s hs
    rw [List.nil_append] at hs
    subst hs
    refine ⟨0, firstIdx_pos q _ ((hasPref_iff _ _).mpr ⟨t, rfl⟩), [], ?_⟩
    simp [List.drop_left]
  | cons y g' ih =>
    intro q t s hs
    rw [List.cons_append] at hs
    subst hs
    by_cases hp : hasPref q (y :: (g' ++ (q ++ t))) = true
    · refine ⟨0, firstIdx_pos q _ hp, ?_⟩
      obtain ⟨u, hu⟩ := (hasPref_iff _ _).mp hp
      have hlen : t.length ≤ u.length := by
        have hh := congrArg List.length hu
        simp only [List.length_cons, List.length_append] at hh
        omega
      have hre : (y :: g' ++ q) ++ t = q ++ u := by
        rw [← hu]
        simp [List.append_assoc]
      obtain ⟨g'', hg''⟩ := suffix_of_longer hre hlen
      refine ⟨g'', ?_⟩
      rw [hu, Nat.zero_add, List.drop_left]
      exact hg''
    · obtain ⟨i, hi, g'', hg''⟩ := ih q t (g' ++ (q ++ t)) rfl
      refine ⟨i + 1, ?_, g'', ?_⟩
      · simp [firstIdx, hp, hi]
      · rw [show i + 1 + q.length = (i + q.length) + 1 by omega, List.drop_succ_cons]
        exact hg''

theorem tailD_gap_absorb (q : List Char) (qs : List (List Char)) (g t : List Char)
    (h : TailD (q :: qs) t) : TailD (q :: qs) (g ++ t) := by
  obtain ⟨g₀, t₀, rfl, ht₀⟩ := h
  exact ⟨g ++ g₀, t₀, by simp, ht₀⟩

theorem scanMids_of_tailD :
    ∀ (qs : List (List Char)) (lastp s : List Char),
      TailD (qs ++ [lastp]) s → scanMids qs s = true := by
  intro qs
  induction qs with
  | nil => intro lastp s _; rfl
  | cons q qs' ih =>
    intro lastp s h
    rw [List.cons_append] at h
    obtain ⟨g, t, hst, ht⟩ := h
    subst hst
    obtain ⟨i, hi, g', hg'⟩ :=
      firstIdx_complete g q t (g ++ q ++ t) (List.append_assoc g q t)
    simp only [scanMids, hi]
    refine ih lastp _ ?_
    rw [hg']
    cases hqs : qs' ++ [lastp] with
    | nil => simp at hqs
    | cons a b =>
      rw [hqs] at ht
      exact tailD_gap_absorb a b g' t ht

theorem tailD_last_suffix :
    ∀ (qs : List (List Char)) (lastp s : List Char),
      TailD (qs ++ [lastp]) s → ∃ u, s = u ++ lastp := by
  intro qs
  induction qs with
  | nil =>
    intro lastp s h
    rw [List.nil_append] at h
    obtain ⟨g, t, hst, ht⟩ := h
    rw [show TailD [] t = (t = []) from rfl] at ht
    subst ht
    subst hst
    exact ⟨g, by simp⟩
  | cons q qs' ih =>
    intro lastp s h
    rw [List.cons_append] at h
    obtain ⟨g, t, hst, ht⟩ := h
    subst hst
    obtain ⟨u, rfl⟩ := ih lastp t ht
    exact ⟨g ++ q ++ u, by simp⟩

theorem getLastD_concat' (x : List Char) :
    ∀ (m : List (List Char)) (d : List Char), (m ++ [x]).getLastD d = x := by
  intro m
  induction m with
  | nil => intro d; rfl
  | cons a b ih =>
    intro d
    rw [List.cons_append, List.getLastD_cons]
    exact ih a

theorem splitOnChar_eq_single (c : Char) :
    ∀ (s p : List Char), splitOnChar c s = [p] → p = s := by
  intro s
  induction s with
  | nil => intro p hp; simp [splitOnChar] at hp; simp [hp]
  | cons x xs ih =>
    intro p hp
    simp only [splitOnChar] at hp
    cases hx : splitOnChar c xs with
    | nil => exact absurd hx (splitOnChar_ne_nil c xs)
    | cons h t =>
      rw [hx] at hp
      by_cases hxc : x = c
      · simp [hxc] at hp
      · simp only [if_neg hxc] at hp
        injection hp with h1 h2
        subst h2
        subst h1
        have := ih h hx
        simp [this]

theorem matchWildcard_complete (origin pat : List Char)
    (h : AnySpec pat origin) : matchWildcard origin pat = true := by
  rw [anySpec_iff_partsD] at h
  rw [matchWildcard.eq_def]
  cases hsplit : splitOnChar '*' pat with
  | nil => exact absurd hsplit (splitOnChar_ne_nil '*' pat)
  | cons p rest =>
    cases rest with
    | nil =>
      rw [hsplit] at h
      simp only [PartsD] at h
      have := splitOnChar_eq_single '*' pat p hsplit
      simp [h, this]
    | cons q qrest =>
      rw [hsplit] at h
      simp only [PartsD] at h
      obtain ⟨t₀, rfl, hT⟩ := h
      obtain ⟨mids, lastp, hdecomp⟩ : ∃ m x, q :: qrest = m ++ [x] := by
        rcases List.eq_nil_or_concat (q :: qrest) with hnil | ⟨m, x, hmx⟩
        · simp at hnil
        · exact ⟨m, x, by simpa [List.concat_eq_append] using hmx⟩
      simp only [Bool.and_eq_true]
      refine ⟨⟨(hasPref_iff _ _).mpr ⟨t₀, rfl⟩, ?_⟩, ?_⟩
      · rw [hdecomp, getLastD_concat']
        obtain ⟨u, rfl⟩ := tailD_last_suffix mids lastp t₀ (hdecomp ▸ hT)
        exact (hasSuf_iff _ _).mpr ⟨p ++ u, by simp⟩
      · rw [hdecomp, List.dropLast_concat, List.drop_left]
        exact scanMids_of_tailD mids lastp t₀ (hdecomp ▸ hT)

theorem starMatchAny_iff (f : List Char → Bool) (P : List Char → Prop)
    (hf : ∀ s, f s = true ↔ P s) (s : List Char) :
    starMatchAny f s = true ↔ ∃ g r, s = g ++ r ∧ P r := by
  induction s with
  | nil =>
    simp only [starMatchAny, hf]
    constructor
    · intro hp
      exact ⟨[], [], rfl, hp⟩
    · rintro ⟨g, r, hgr, hr⟩
      obtain ⟨rfl, rfl⟩ := List.append_eq_nil.mp hgr.symm
      exact hr
  | cons x s' ih =>
    simp only [starMatchAny, Bool.or_eq_true, hf, ih]
    constructor
    · rintro (hp | ⟨g, r, rfl, hr⟩)
      · exact ⟨[], x :: s', rfl, hp⟩
      · exact ⟨x :: g, r, rfl, hr⟩
    · rintro ⟨g, r, hgr, hr⟩
      cases g with
      | nil =>
        simp only [List.nil_append] at hgr
        subst hgr
        exact Or.inl hr
      | cons y g' =>
        simp only [List.cons_append, List.cons.injEq] at hgr
        obtain ⟨rfl, rfl⟩ := hgr
        exact Or.inr ⟨g', r, rfl, hr⟩

theorem anyMatch_iff (ps s : List Char) : anyMatch ps s = true ↔ AnySpec ps s := by
  induction ps generalizing s with
  | nil => simp [anyMatch, AnySpec, List.isEmpty_iff]
  | cons c ps' ih =>
    by_cases hc : c = '*'
    · subst hc
      simp only [anyMatch, AnySpec, if_pos rfl]
      exact starMatchAny_iff (anyMatch ps') (AnySpec ps') ih s
    · cases s with
      | nil => simp [anyMatch, AnySpec, hc]
      | cons x s' =>
        simp only [anyMatch, AnySpec, if_neg hc, Bool.and_eq_true, beq_iff_eq, ih,
          List.cons.injEq]
        constructor
        · rintro ⟨rfl, hw⟩
          exact ⟨s', ⟨rfl, rfl⟩, hw⟩
        · rintro ⟨r, ⟨rfl, rfl⟩, hw⟩
          exact ⟨rfl, hw⟩

theorem matchPattern_iff (key pat : String) :
    matchPattern key pat = true ↔ PatternMatchesSpec pat key := by
  unfold matchPattern PatternMatchesSpec
  by_cases hacc : pat = "*" ∨ pat = "*/*" ∨ pat = "**"
  · rcases hacc with h | h | h <;> simp [h]
  · rw [if_neg hacc, wildMatch_iff]
    constructor
    · intro hw
      exact Or.inr (Or.inr (Or.inr hw))
    · rintro (h | h | h | h)
      · exact absurd (Or.inl h) hacc
      · exact absurd (Or.inr (Or.inl h)) hacc
      · exact absurd (Or.inr (Or.inr h)) hacc
      · exact h

theorem wildSpec_no_star (ps : List Char) (hstar : '*' ∉ ps) :
    ∀ s, WildSpec ps s ↔ s = ps := by
  induction ps with
  | nil => intro s; simp [WildSpec]
  | cons c ps' ih =>
    intro s
    have hc : c ≠ '*' := fun h => hstar (h ▸ List.mem_cons_self c ps')
    have hps' : '*' ∉ ps' := fun h => hstar (List.mem_cons_of_mem c h)
    simp only [WildSpec, if_neg hc]
    constructor
    · rintro ⟨r, rfl, hr⟩
      rw [(ih hps' r).mp hr]
    · rintro rfl
      exact ⟨ps', rfl, (ih hps' ps').mpr rfl⟩

theorem cacheGet_set_self (c : Cache) (k : String) (v : CacheVal) :
    cacheGet (cacheSet c k v) k = some v := by
  simp [cacheGet, cacheSet, List.find?]

theorem cacheGet_delete_self (c : Cache) (k : String) :
    cacheGet (cacheDelete c k) k = none := by
  induction c with
  | nil => rfl
  | cons e c' ih =>
    simp only [cacheDelete, List.filter_cons] at ih ⊢
    by_cases he : e.1 = k
    · simp only [he, bne_self_eq_false]
      exact ih
    · have hb : (e.1 != k) = true := by simp [bne, he]
      simp only [hb, if_pos]
      simp only [cacheGet, List.find?]
      have : (e.1 == k) = false := by simp [he]
      rw [this]
      exact ih

example : matchWildcardS "https://app.example.com" "https://*.example.com" = true := by decide

/-- C8: for every well-formed upload-token issuance request naming an
archived bucket owned by the authenticated client, the handler returns
the 409 Conflict response (body errs.NewValidationError with the
archived-bucket message, as the repository docs label it, 409 Conflict)
and neither the cache nor the store is written: no token payload is
ever stored for such a request. -/
theorem c8_archived_bucket_conflict
    (db : Db) (cache : Cache) (clientID : String) (req : CreateSignedURLRequest)
    (fileID uploadToken : String) (insertOk cacheSetOk : Bool) (b : BucketRow)
    (hv1 : 0 < req.bucketID) (hv2 : req.key ≠ "") (hv3 : req.fileName ≠ "")
    (hv4 : 0 < req.fileSize) (hv5 : req.mimetype ≠ "") (hv6 : req.ownerEntityType ≠ "")
    (hv7 : req.ownerEntityID ≠ "")
    (hb : findBucket db req.bucketID = some b)
    (hown : b.clientID = clientID) (harch : b.archived ≠ 0) :
    generateSignedURL db cache (some clientID) req fileID uploadToken insertOk cacheSetOk =
      (.err 409 (.validation "Cannot upload to an archived bucket"), db, cache) := by
  have h1 : ¬(req.bucketID ≤ 0) := not_le.mpr hv1
  have h4 : ¬(req.fileSize ≤ 0) := not_le.mpr hv4
  simp [generateSignedURL, h1, hv2, hv3, h4, hv5, hv6, hv7, hb, hown, harch]

theorem c8_archived_bucket_conflict_witness :
    generateSignedURL c8Db [] (some "c1") c8Req "fid" "tok" true true =
      (.err 409 (.validation "Cannot upload to an archived bucket"), c8Db, []) :=
  c8_archived_bucket_conflict c8Db [] "c1" c8Req "fid" "tok" true true
    { id := 1, name := "b", clientID := "c1", corsPolicy := [],
      publicPaths := [], archived := 1 }
    (by decide) (by decide) (by decide) (by decide) (by decide) (by decide) (by decide)
    (by decide) (by decide) (by decide)

/-- C9: redeeming an upload token with a transmitted size above the
declared ceiling returns the ValidationError, leaves both the cache
(the token stays) and the disk untouched, and a later redemption of
the same token with a size within the ceiling still succeeds. -/
theorem c9_oversize_upload_rejected
    (cache : Cache) (disk : Disk) (token : String) (ora : UploadOracle)
    (td : UploadTokenData)
    (htok : token ≠ "")
    (hget : cacheGet cache ("upload:" ++ token) = some (.up td))
    (hp : ora.formParseOk = true) (hf : ora.formFileOk = true)
    (hs : td.fileSize < ora.headerSize) :
    uploadFile cache disk token ora =
      (.err 400 (.validation "File size exceeds allowed limit"), cache, disk)
    ∧ ∀ (ora' : UploadOracle) (w : Int),
        ora'.formParseOk = true → ora'.formFileOk = true →
        ora'.headerSize ≤ td.fileSize → ora'.mkdirOk = true → ora'.createOk = true →
        ora'.copy = .ok w →
        uploadFile cache disk token ora' =
          (.ok td.fileID td.fileName w td.bucketID (goJoin2 "./uploads" td.filePath),
           cacheDelete cache ("upload:" ++ token),
           insertPath (goJoin2 "./uploads" td.filePath) disk) := by
  constructor
  · simp [uploadFile, htok, hget, hp, hf, hs, parseUploadTokenData]
  · intro ora' w hp' hf' hs' hm' hc' hcopy
    have hns : ¬(td.fileSize < ora'.headerSize) := not_lt.mpr hs'
    simp [uploadFile, htok, hget, hp', hf', hns, hm', hc', hcopy, parseUploadTokenData]

theorem c9_oversize_upload_rejected_witness :
    uploadFile [("upload:tok", .up c9TD)] [] "tok"
        { formParseOk := true, formFileOk := true, headerSize := 99,
          mkdirOk := true, createOk := true, copy := .ok 99 } =
      (.err 400 (.validation "File size exceeds allowed limit"),
       [("upload:tok", .up c9TD)], [])
    ∧ uploadFile [("upload:tok", .up c9TD)] [] "tok"
        { formParseOk := true, formFileOk := true, headerSize := 7,
          mkdirOk := true, createOk := true, copy := .ok 7 } =
      (.ok "f1" "doc.pdf" 7 1 "uploads/cli/buck/doc.pdf",
       cacheDelete [("upload:tok", .up c9TD)] "upload:tok",
       insertPath "uploads/cli/buck/doc.pdf" []) := by
  have h := c9_oversize_upload_rejected [("upload:tok", .up c9TD)] [] "tok"
    { formParseOk := true, formFileOk := true, headerSize := 99,
      mkdirOk := true, createOk := true, copy := .ok 99 } c9TD
    (by decide) (by decide) (by decide) (by decide) (by decide)
  refine ⟨h.1, ?_⟩
  have h2 := h.2
    { formParseOk := true, formFileOk := true, headerSize := 7,
      mkdirOk := true, createOk := true, copy := .ok 7 } 7
    (by decide) (by decide) (by decide) (by decide) (by decide) (by decide)
  have hj : goJoin2 "./uploads" c9TD.filePath = "uploads/cli/buck/doc.pdf" := by decide
  rw [h2, hj]
  decide

/-- C1 counterexample: an upload redemption whose io.Copy fails after
committing bytes (the destination file exists on disk afterwards, and
the copy reports five bytes written) is a terminal outcome that
transfers bytes, yet the token is not deleted from the cache and an
immediately following second redemption of the same token succeeds
instead of failing with an AuthenticationError. -/
theorem c1_counterexample :
    (uploadFile c1Cache [] "tok" c1OraFail).1 = .err 500 (.internal "Failed to save file")
    ∧ (uploadFile c1Cache [] "tok" c1OraFail).2.2 = ["uploads/cli/buck/doc.pdf"]
    ∧ (uploadFile c1Cache [] "tok" c1OraFail).2.1 = c1Cache
    ∧ (uploadFile (uploadFile c1Cache [] "tok" c1OraFail).2.1
        (uploadFile c1Cache [] "tok" c1OraFail).2.2 "tok" c1OraRetry).1 =
      .ok "f1" "doc.pdf" 5 1 "uploads/cli/buck/doc.pdf" := by
  decide

/-- C1 amended: on every redemption that completes its transfer
successfully (uploads), or that successfully opens the file, stream
failure included (downloads), the token is deleted and an immediately
following second redemption of the same token fails with the
AuthenticationError; an upload io.Copy failure after a partial write,
however, leaves the token in the cache. -/
theorem c1_amended_one_time_use :
    (∀ (cache : Cache) (disk : Disk) (token : String) (ora : UploadOracle)
        (td : UploadTokenData) (w : Int),
      token ≠ "" →
      cacheGet cache ("upload:" ++ token) = some (.up td) →
      ora.formParseOk = true → ora.formFileOk = true →
      ora.headerSize ≤ td.fileSize → ora.mkdirOk = true → ora.createOk = true →
      ora.copy = .ok w →
      (uploadFile cache disk token ora).2.1 = cacheDelete cache ("upload:" ++ token) ∧
      ∀ (disk' : Disk) (ora' : UploadOracle),
        (uploadFile (uploadFile cache disk token ora).2.1 disk' token ora').1 =
          .err 401 (.authentication "Invalid or expired upload token")) ∧
    (∀ (cache : Cache) (disk : Disk) (token : String) (sf : Bool)
        (td : DownloadTokenData),
      token ≠ "" →
      cacheGet cache ("download:" ++ token) = some (.down td) →
      disk.contains (goJoin2 "./uploads" td.filePath) = true →
      (downloadFile cache disk token sf).2.1 = cacheDelete cache ("download:" ++ token) ∧
      ∀ (disk' : Disk) (sf' : Bool),
        (downloadFile (downloadFile cache disk token sf).2.1 disk' token sf').1 =
          .err 401 (.authentication "Invalid or expired download token")) ∧
    (∀ (cache : Cache) (disk : Disk) (token : String) (ora : UploadOracle)
        (td : UploadTokenData) (w : Int),
      token ≠ "" →
      cacheGet cache ("upload:" ++ token) = some (.up td) →
      ora.formParseOk = true → ora.formFileOk = true →
      ora.headerSize ≤ td.fileSize → ora.mkdirOk = true → ora.createOk = true →
      ora.copy = .fail w →
      (uploadFile cache disk token ora).2.1 = cache) := by
  refine ⟨?_, ?_, ?_⟩
  · intro cache disk token ora td w htok hget hp hf hs hm hc hcopy
    have hns : ¬(td.fileSize < ora.headerSize) := not_lt.mpr hs
    have hdel : (uploadFile cache disk token ora).2.1 =
        cacheDelete cache ("upload:" ++ token) := by
      simp [uploadFile, htok, hget, hp, hf, hns, hm, hc, hcopy, parseUploadTokenData]
    refine ⟨hdel, ?_⟩
    intro disk' ora'
    rw [hdel]
    simp [uploadFile, htok, cacheGet_delete_self]
  · intro cache disk token sf td htok hget hd
    have hd' : goJoin2 "./uploads" td.filePath ∈ disk := by simpa using hd
    have hdel : (downloadFile cache disk token sf).2.1 =
        cacheDelete cache ("download:" ++ token) := by
      simp [downloadFile, htok, hget, parseDownloadTokenData, hd']
    refine ⟨hdel, ?_⟩
    intro disk' sf'
    rw [hdel]
    simp [downloadFile, htok, cacheGet_delete_self]
  · intro cache disk token ora td w htok hget hp hf hs hm hc hcopy
    have hns : ¬(td.fileSize < ora.headerSize) := not_lt.mpr hs
    simp [uploadFile, htok, hget, hp, hf, hns, hm, hc, hcopy, parseUploadTokenData]

theorem c1_amended_one_time_use_witness :
    (uploadFile c1Cache [] "tok" c1OraRetry).2.1 = cacheDelete c1Cache "upload:tok"
    ∧ (uploadFile (uploadFile c1Cache [] "tok" c1OraRetry).2.1 [] "tok" c1OraRetry).1 =
      .err 401 (.authentication "Invalid or expired upload token")
    ∧ (downloadFile [("download:tok", .down c1DTD)] ["uploads/cli/buck/doc.pdf"]
        "tok" true).2.1 = cacheDelete [("download:tok", .down c1DTD)] "download:tok"
    ∧ (downloadFile
        (downloadFile [("download:tok", .down c1DTD)] ["uploads/cli/buck/doc.pdf"]
          "tok" true).2.1 ["uploads/cli/buck/doc.pdf"] "tok" false).1 =
      .err 401 (.authentication "Invalid or expired download token") := by
  have hu := c1_amended_one_time_use.1 c1Cache [] "tok" c1OraRetry c1TD 5
    (by decide) (by decide) (by decide) (by decide) (by decide) (by decide) (by decide)
    (by decide)
  have hd := c1_amended_one_time_use.2.1 [("download:tok", .down c1DTD)]
    ["uploads/cli/buck/doc.pdf"] "tok" true c1DTD
    (by decide) (by decide) (by decide)
  exact ⟨hu.1, hu.2 [] c1OraRetry, hd.1, hd.2 ["uploads/cli/buck/doc.pdf"] false⟩

/-- C2 counterexample: a valid issuance request whose key contains a
redundant separator succeeds, but the stored payload path is the
cleaned filepath.Join result, not the three components joined with the
separator character: the claim as stated fails at key x//y. -/
theorem c2_counterexample :
    (generateSignedURL c2Db [] (some "c1") c2Req "f1" "tok" true true).1 =
      .ok "f1" "http://localhost:8080/files/upload?token=tok"
    ∧ ((cacheGet (generateSignedURL c2Db [] (some "c1") c2Req "f1" "tok" true true).2.2
        "upload:tok").map (fun v => (parseUploadTokenData v).filePath)) =
      some "cli/buck/x/y"
    ∧ ("cli/buck/x/y" : String) ≠ "cli" ++ "/" ++ "buck" ++ "/" ++ "x//y" := by
  decide

/-- Upload half of the amended resolved-path property. -/
theorem upload_resolved_path_lemma
    (db : Db) (cache : Cache) (clientID : String) (req : CreateSignedURLRequest)
    (fileID uploadToken : String) (b : BucketRow) (cn : String)
    (hv1 : 0 < req.bucketID) (hv2 : req.key ≠ "") (hv3 : req.fileName ≠ "")
    (hv4 : 0 < req.fileSize) (hv5 : req.mimetype ≠ "") (hv6 : req.ownerEntityType ≠ "")
    (hv7 : req.ownerEntityID ≠ "")
    (hb : findBucket db req.bucketID = some b)
    (hown : b.clientID = clientID) (harch : b.archived = 0)
    (hcn : findClientName db clientID = some cn) :
    (generateSignedURL db cache (some clientID) req fileID uploadToken true true).1 =
      .ok fileID ("http://localhost:8080/files/upload?token=" ++ uploadToken)
    ∧ cacheGet
        (generateSignedURL db cache (some clientID) req fileID uploadToken true true).2.2
        ("upload:" ++ uploadToken) =
      some (.up { fileID := fileID, fileName := req.fileName, fileSize := req.fileSize,
                  mimetype := req.mimetype, clientID := clientID, bucketID := req.bucketID,
                  filePath := goJoin3 cn b.name req.key,
                  ownerEntityType := req.ownerEntityType,
                  ownerEntityID := req.ownerEntityID })
    ∧ ∀ (disk : Disk) (ora : UploadOracle) (w : Int),
        uploadToken ≠ "" →
        ora.formParseOk = true → ora.formFileOk = true →
        ora.headerSize ≤ req.fileSize → ora.mkdirOk = true → ora.createOk = true →
        ora.copy = .ok w →
        uploadFile
            (generateSignedURL db cache (some clientID) req fileID uploadToken true true).2.2
            disk uploadToken ora =
          (.ok fileID req.fileName w req.bucketID
             (goJoin2 "./uploads" (goJoin3 cn b.name req.key)),
           cacheDelete
             (generateSignedURL db cache (some clientID) req fileID uploadToken true true).2.2
             ("upload:" ++ uploadToken),
           insertPath (goJoin2 "./uploads" (goJoin3 cn b.name req.key)) disk) := by
  have h1 : ¬(req.bucketID ≤ 0) := not_le.mpr hv1
  have h4 : ¬(req.fileSize ≤ 0) := not_le.mpr hv4
  have hout :
      (generateSignedURL db cache (some clientID) req fileID uploadToken true true).2.2 =
        cacheSet cache ("upload:" ++ uploadToken)
          (.up { fileID := fileID, fileName := req.fileName, fileSize := req.fileSize,
                 mimetype := req.mimetype, clientID := clientID, bucketID := req.bucketID,
                 filePath := goJoin3 cn b.name req.key,
                 ownerEntityType := req.ownerEntityType,
                 ownerEntityID := req.ownerEntityID }) := by
    simp [generateSignedURL, h1, hv2, hv3, h4, hv5, hv6, hv7, hb, hown, harch, hcn]
  refine ⟨?_, ?_, ?_⟩
  · simp [generateSignedURL, h1, hv2, hv3, h4, hv5, hv6, hv7, hb, hown, harch, hcn]
  · rw [hout, cacheGet_set_self]
  · intro disk ora w htok hp hf hs hm hc hcopy
    have hns : ¬((req.fileSize : Int) < ora.headerSize) := not_lt.mpr hs
    rw [hout]
    simp [uploadFile, htok, cacheGet_set_self, hp, hf, hns, hm, hc, hcopy,
      parseUploadTokenData]

/-- Download half of the amended resolved-path property. -/
theorem download_resolved_path_lemma
    (db : Db) (cache : Cache) (disk : Disk) (clientID : String)
    (fileID downloadToken : String) (f : FileRow) (cn bn : String)
    (hfid : fileID ≠ "")
    (hf : findFileJoin db fileID = some (f, cn, bn))
    (hown : f.clientID = clientID)
    (hdisk : disk.contains (goJoin2 "./uploads" (goJoin3 cn bn f.key)) = true) :
    cacheGet
        (generateDownloadSignedURL db cache disk (some clientID) fileID downloadToken
          true).2
        ("download:" ++ downloadToken) =
      some (.down { fileID := f.id, fileName := f.fileName, mimetype := f.mimetype,
                    clientID := clientID, bucketID := f.bucketID,
                    filePath := goJoin3 cn bn f.key })
    ∧ ∀ (disk2 : Disk) (sf : Bool),
        downloadToken ≠ "" →
        (downloadFile
            (generateDownloadSignedURL db cache disk (some clientID) fileID downloadToken
              true).2
            disk2 downloadToken sf).1 =
          (if disk2.contains (goJoin2 "./uploads" (goJoin3 cn bn f.key)) then
            DownloadResult.ok f.mimetype f.fileName sf
          else .err 404 (.notFound "File not found")) := by
  have hdisk' : goJoin2 "./uploads" (goJoin3 cn bn f.key) ∈ disk := by simpa using hdisk
  have hout :
      (generateDownloadSignedURL db cache disk (some clientID) fileID downloadToken
        true).2 =
        cacheSet cache ("download:" ++ downloadToken)
          (.down { fileID := f.id, fileName := f.fileName, mimetype := f.mimetype,
                   clientID := clientID, bucketID := f.bucketID,
                   filePath := goJoin3 cn bn f.key }) := by
    simp [generateDownloadSignedURL, hfid, hf, hown, hdisk']
  refine ⟨?_, ?_⟩
  · rw [hout, cacheGet_set_self]
  · intro disk2 sf htok
    rw [hout]
    by_cases hc2 : goJoin2 "./uploads" (goJoin3 cn bn f.key) ∈ disk2
    · simp [downloadFile, htok, cacheGet_set_self, parseDownloadTokenData, hc2]
    · simp [downloadFile, htok, cacheGet_set_self, parseDownloadTokenData, hc2]

/-- C2 amended: for every valid issuance request (upload or download),
the payload stored under the returned token carries a resolved path
equal to filepath.Join of the client name, bucket name, and key, that
is, the three components joined with the separator and normalized as
Go Clean does (redundant separators and dot segments resolved),
computed at issuance time from the names then in effect; redemption
performs its file I/O at exactly filepath.Join of the uploads root and
that stored path, consulting only the payload and never the store
again. -/
theorem c2_amended_resolved_path :
    (∀ (db : Db) (cache : Cache) (clientID : String) (req : CreateSignedURLRequest)
        (fileID uploadToken : String) (b : BucketRow) (cn : String),
      0 < req.bucketID → req.key ≠ "" → req.fileName ≠ "" → 0 < req.fileSize →
      req.mimetype ≠ "" → req.ownerEntityType ≠ "" → req.ownerEntityID ≠ "" →
      findBucket db req.bucketID = some b → b.clientID = clientID → b.archived = 0 →
      findClientName db clientID = some cn →
      (generateSignedURL db cache (some clientID) req fileID uploadToken true true).1 =
        .ok fileID ("http://localhost:8080/files/upload?token=" ++ uploadToken)
      ∧ cacheGet
          (generateSignedURL db cache (some clientID) req fileID uploadToken true true).2.2
          ("upload:" ++ uploadToken) =
        some (.up { fileID := fileID, fileName := req.fileName, fileSize := req.fileSize,
                    mimetype := req.mimetype, clientID := clientID,
                    bucketID := req.bucketID, filePath := goJoin3 cn b.name req.key,
                    ownerEntityType := req.ownerEntityType,
                    ownerEntityID := req.ownerEntityID })
      ∧ ∀ (disk : Disk) (ora : UploadOracle) (w : Int),
          uploadToken ≠ "" →
          ora.formParseOk = true → ora.formFileOk = true →
          ora.headerSize ≤ req.fileSize → ora.mkdirOk = true → ora.createOk = true →
          ora.copy = .ok w →
          uploadFile
              (generateSignedURL db cache (some clientID) req fileID uploadToken
                true true).2.2
              disk uploadToken ora =
            (.ok fileID req.fileName w req.bucketID
               (goJoin2 "./uploads" (goJoin3 cn b.name req.key)),
             cacheDelete
               (generateSignedURL db cache (some clientID) req fileID uploadToken
                 true true).2.2
               ("upload:" ++ uploadToken),
             insertPath (goJoin2 "./uploads" (goJoin3 cn b.name req.key)) disk)) ∧
    (∀ (db : Db) (cache : Cache) (disk : Disk) (clientID : String)
        (fileID downloadToken : String) (f : FileRow) (cn bn : String),
      fileID ≠ "" →
      findFileJoin db fileID = some (f, cn, bn) →
      f.clientID = clientID →
      disk.contains (goJoin2 "./uploads" (goJoin3 cn bn f.key)) = true →
      cacheGet
          (generateDownloadSignedURL db cache disk (some clientID) fileID downloadToken
            true).2
          ("download:" ++ downloadToken) =
        some (.down { fileID := f.id, fileName := f.fileName, mimetype := f.mimetype,
                      clientID := clientID, bucketID := f.bucketID,
                      filePath := goJoin3 cn bn f.key })
      ∧ ∀ (disk2 : Disk) (sf : Bool),
          downloadToken ≠ "" →
          (downloadFile
              (generateDownloadSignedURL db cache disk (some clientID) fileID
                downloadToken true).2
              disk2 downloadToken sf).1 =
            (if disk2.contains (goJoin2 "./uploads" (goJoin3 cn bn f.key)) then
              DownloadResult.ok f.mimetype f.fileName sf
            else .err 404 (.notFound "File not found"))) := by
  constructor
  · intro db cache clientID req fileID uploadToken b cn
      hv1 hv2 hv3 hv4 hv5 hv6 hv7 hb hown harch hcn
    exact upload_resolved_path_lemma db cache clientID req fileID uploadToken b cn
      hv1 hv2 hv3 hv4 hv5 hv6 hv7 hb hown harch hcn
  · intro db cache disk clientID fileID downloadToken f cn bn hfid hf hown hdisk
    have h := download_resolved_path_lemma db cache disk clientID fileID downloadToken
      f cn bn hfid hf hown hdisk
    exact ⟨h.1, fun disk2 sf htok => h.2 disk2 sf htok⟩

theorem c2_amended_resolved_path_witness :
    cacheGet
        (generateSignedURL c2Db [] (some "c1") c2Req "f1" "tok" true true).2.2
        "upload:tok" =
      some (.up { fileID := "f1", fileName := "y", fileSize := 10,
                  mimetype := "text/plain", clientID := "c1", bucketID := 1,
                  filePath := goJoin3 "cli" "buck" "x//y",
                  ownerEntityType := "user", ownerEntityID := "u1" })
    ∧ uploadFile
        (generateSignedURL c2Db [] (some "c1") c2Req "f1" "tok" true true).2.2
        [] "tok"
        { formParseOk := true, formFileOk := true, headerSize := 5,
          mkdirOk := true, createOk := true, copy := .ok 5 } =
      (.ok "f1" "y" 5 1 (goJoin2 "./uploads" (goJoin3 "cli" "buck" "x//y")),
       cacheDelete
         (generateSignedURL c2Db [] (some "c1") c2Req "f1" "tok" true true).2.2
         "upload:tok",
       insertPath (goJoin2 "./uploads" (goJoin3 "cli" "buck" "x//y")) []) := by
  have h := c2_amended_resolved_path.1 c2Db [] "c1" c2Req "f1" "tok"
    { id := 1, name := "buck", clientID := "c1", corsPolicy := [],
      publicPaths := [], archived := 0 } "cli"
    (by decide) (by decide) (by decide) (by decide) (by decide) (by decide) (by decide)
    (by decide) (by decide) (by decide) (by decide)
  exact ⟨h.2.1, h.2.2 [] _ 5 (by decide) (by decide) (by decide) (by decide) (by decide)
    (by decide) (by decide)⟩

theorem starMatchAny_of_split (f : List Char → Bool) :
    ∀ (g r s : List Char), s = g ++ r → f r = true → starMatchAny f s = true := by
  intro g
  induction g with
  | nil =>
    intro r s hs hf
    rw [List.nil_append] at hs
    rw [hs]
    cases r with
    | nil => exact hf
    | cons x r' => simp [starMatchAny, hf]
  | cons y g' ih =>
    intro r s hs hf
    rw [List.cons_append] at hs
    rw [hs]
    simp only [starMatchAny, Bool.or_eq_true]
    exact Or.inr (ih r _ rfl hf)

theorem likeM_percent_all (s : List Char) : likeM ['%'] s = true := by
  show starMatchAny (likeM []) s = true
  exact starMatchAny_of_split (likeM []) s [] s (by simp) rfl

theorem likeCharEq_self (c : Char) : likeCharEq c c = true := by
  simp [likeCharEq]

theorem likeM_append_percent :
    ∀ (a t s : List Char), s = a ++ t → likeM (a ++ ['%']) s = true := by
  intro a
  induction a with
  | nil =>
    intro t s hs
    rw [List.nil_append] at hs
    rw [hs]
    exact likeM_percent_all t
  | cons c a' ih =>
    intro t s hs
    rw [List.cons_append] at hs
    rw [hs]
    by_cases hc : c = '%'
    · subst hc
      show starMatchAny (likeM (a' ++ ['%'])) ('%' :: (a' ++ t)) = true
      exact starMatchAny_of_split _ ['%'] (a' ++ t) _ rfl (ih t _ rfl)
    · by_cases hu : c = '_'
      · subst hu
        show likeM ('_' :: (a' ++ ['%'])) ('_' :: (a' ++ t)) = true
        rw [likeM, if_neg (show ¬(('_' : Char) = '%') by decide), if_pos rfl]
        exact ih t _ rfl
      · show likeM (c :: (a' ++ ['%'])) (c :: (a' ++ t)) = true
        rw [likeM, if_neg hc, if_neg hu]
        simp only [Bool.and_eq_true]
        exact ⟨likeCharEq_self c, ih t _ rfl⟩

theorem perm_insertLE (le : α → α → Bool) (a : α) (l : List α) :
    (insertLE le a l).Perm (a :: l) := by
  induction l with
  | nil => exact List.Perm.refl _
  | cons b l ih =>
    by_cases h : le a b = true
    · rw [insertLE, if_pos h]
    · rw [insertLE, if_neg h]
      exact (ih.cons b).trans (List.Perm.swap a b l)

theorem perm_sortLE (le : α → α → Bool) (l : List α) : (sortLE le l).Perm l := by
  induction l with
  | nil => exact List.Perm.refl _
  | cons a l ih =>
    rw [sortLE]
    exact (perm_insertLE le a (sortLE le l)).trans (ih.cons a)

theorem sorted_insertLE (le : α → α → Bool)
    (htrans : ∀ a b c, le a b = true → le b c = true → le a c = true)
    (htotal : ∀ a b, le a b = true ∨ le b a = true)
    (a : α) (l : List α) (h : l.Pairwise (fun x y => le x y = true)) :
    (insertLE le a l).Pairwise (fun x y => le x y = true) := by
  induction l with
  | nil => simp [insertLE]
  | cons b l ih =>
    rw [List.pairwise_cons] at h
    obtain ⟨hb, hl⟩ := h
    by_cases hab : le a b = true
    · rw [insertLE, if_pos hab, List.pairwise_cons]
      refine ⟨?_, List.pairwise_cons.mpr ⟨hb, hl⟩⟩
      intro y hy
      rcases List.mem_cons.mp hy with rfl | hy
      · exact hab
      · exact htrans a b y hab (hb y hy)
    · rw [insertLE, if_neg hab, List.pairwise_cons]
      have hba : le b a = true := (htotal a b).resolve_left hab
      refine ⟨?_, ih hl⟩
      intro y hy
      rcases List.mem_cons.mp ((perm_insertLE le a l).mem_iff.mp hy) with rfl | hy'
      · exact hba
      · exact hb y hy'

theorem sorted_sortLE (le : α → α → Bool)
    (htrans : ∀ a b c, le a b = true → le b c = true → le a c = true)
    (htotal : ∀ a b, le a b = true ∨ le b a = true)
    (l : List α) : (sortLE le l).Pairwise (fun x y => le x y = true) := by
  induction l with
  | nil => exact List.Pairwise.nil
  | cons a l ih =>
    rw [sortLE]
    exact sorted_insertLE le htrans htotal a (sortLE le l) ih

theorem removeFiles_perm (ora : RemoveOracle) :
    ∀ (fileIDs : List String) (records : String → Option String) (disk : Disk),
      (((removeFiles ora fileIDs records disk).1.1 ++
        (removeFiles ora fileIDs records disk).1.2.1) ++
        (removeFiles ora fileIDs records disk).1.2.2).Perm fileIDs := by
  intro fileIDs
  induction fileIDs with
  | nil => intro records disk; simp [removeFiles]
  | cons id rest ih =>
    intro records disk
    have hstep := ih records (removeStep ora records disk id).2
    rcases htag : (removeStep ora records disk id).1 with _ | _ | _ <;>
      simp only [removeFiles, htag] <;>
      [skip; skip; skip]
    · simpa using hstep.cons id
    · exact List.Perm.trans ((List.perm_middle).append_right _) (hstep.cons id)
    · exact List.Perm.trans List.perm_middle (hstep.cons id)

theorem string_eq_empty_iff (s : String) : s = "" ↔ s.data = [] :=
  ⟨fun h => by rw [h], fun h => String.ext (by simpa using h)⟩

theorem mem_dbListQuery (files : List FileRow) (B : Int) (path : String) (f : FileRow) :
    f ∈ dbListQuery files B path ↔
      f ∈ files ∧ f.bucketID = B ∧ f.deleted = false ∧
        (if path = "" then f.key ≠ ""
         else likeM (path ++ "/%").data f.key.data = true) := by
  unfold dbListQuery
  rw [(perm_sortLE _ _).mem_iff, List.mem_filter]
  by_cases hp : path = "" <;>
    simp [hp, and_assoc, Bool.and_eq_true, bne_iff_ne]

theorem listPre_ne_root (path : String) (hp : path ≠ "") :
    listPre path = path.data ++ ['/'] := by
  rw [listPre, if_neg hp, String.data_append]

theorem like_pattern_split (path : String) :
    (path ++ "/%").data = (path.data ++ ['/']) ++ ['%'] := by
  rw [String.data_append, List.append_assoc]
  rfl

theorem mem_listFiles_iff (files : List FileRow) (B : Int) (path : String) (f : FileRow) :
    f ∈ (listFiles files B path).1 ↔
      f ∈ files ∧ f.bucketID = B ∧ f.deleted = false ∧ DirectRem (listPre path) f := by
  show f ∈ scanFiles (listPre path) (dbListQuery files B path) ↔ _
  rw [scanFiles, List.mem_filter, mem_dbListQuery]
  constructor
  · rintro ⟨⟨hmem, hB, hdel, hsql⟩, hbool⟩
    simp only [Bool.and_eq_true, bne_iff_ne, Bool.not_eq_true'] at hbool
    obtain ⟨⟨hpref, hne⟩, hslash⟩ := hbool
    obtain ⟨t, ht⟩ := (hasPref_iff _ _).mp hpref
    have hdrop : f.key.data.drop (listPre path).length = t := by
      rw [ht, List.drop_left]
    refine ⟨hmem, hB, hdel, t, ht, ?_, ?_⟩
    · rw [← hdrop]; exact hne
    · intro hin
      rw [← hdrop] at hin
      have hcontains : (f.key.data.drop (listPre path).length).contains '/' = true :=
        List.elem_iff.mpr hin
      rw [hslash] at hcontains
      exact Bool.false_ne_true hcontains
  · rintro ⟨hmem, hB, hdel, t, ht, htne, hts⟩
    have hdrop : f.key.data.drop (listPre path).length = t := by
      rw [ht, List.drop_left]
    refine ⟨⟨hmem, hB, hdel, ?_⟩, ?_⟩
    · by_cases hp : path = ""
      · rw [if_pos hp]
        subst hp
        intro hkey
        have hpre : listPre "" = [] := by decide
        rw [hpre, List.nil_append] at ht
        rw [(string_eq_empty_iff f.key).mp hkey] at ht
        exact htne ht.symm
      · rw [if_neg hp, like_pattern_split]
        exact likeM_append_percent (path.data ++ ['/']) t f.key.data
          (by rw [← listPre_ne_root path hp]; exact ht)
    · simp only [Bool.and_eq_true, bne_iff_ne, Bool.not_eq_true']
      refine ⟨⟨(hasPref_iff _ _).mpr ⟨t, ht⟩, ?_⟩, ?_⟩
      · rw [hdrop]; exact htne
      · rw [hdrop]
        exact Bool.eq_false_iff.mpr (fun hc => hts (List.elem_iff.mp hc))

theorem sqlCond_of_rem (path : String) (f : FileRow) (t : List Char)
    (ht : f.key.data = listPre path ++ t) (htne : t ≠ []) :
    (if path = "" then f.key ≠ ""
     else likeM (path ++ "/%").data f.key.data = true) := by
  by_cases hp : path = ""
  · rw [if_pos hp]
    subst hp
    intro hkey
    have hpre : listPre "" = [] := by decide
    rw [hpre, List.nil_append] at ht
    rw [(string_eq_empty_iff f.key).mp hkey] at ht
    exact htne ht.symm
  · rw [if_neg hp, like_pattern_split]
    exact likeM_append_percent (path.data ++ ['/']) t f.key.data
      (by rw [← listPre_ne_root path hp]; exact ht)

theorem rowKeyLE_trans (a b c : FileRow) (hab : rowKeyLE a b = true)
    (hbc : rowKeyLE b c = true) : rowKeyLE a c = true := by
  simp only [rowKeyLE, decide_eq_true_eq] at *
  exact le_trans hab hbc

theorem rowKeyLE_total (a b : FileRow) : rowKeyLE a b = true ∨ rowKeyLE b a = true := by
  simp only [rowKeyLE, decide_eq_true_eq]
  exact le_total a.key.data b.key.data

theorem strDataLE_trans (a b c : String) (hab : strDataLE a b = true)
    (hbc : strDataLE b c = true) : strDataLE a c = true := by
  simp only [strDataLE, decide_eq_true_eq] at *
  exact le_trans hab hbc

theorem strDataLE_total (a b : String) : strDataLE a b = true ∨ strDataLE b a = true := by
  simp only [strDataLE, decide_eq_true_eq]
  exact le_total a.data b.data

theorem listFiles_files_sorted (files : List FileRow) (B : Int) (path : String) :
    ((listFiles files B path).1.map (fun f => f.key.data)).Pairwise
      (fun a b => a ≤ b) := by
  show ((scanFiles (listPre path) (dbListQuery files B path)).map _).Pairwise _
  rw [List.pairwise_map]
  have hs : (dbListQuery files B path).Pairwise (fun a b => rowKeyLE a b = true) := by
    unfold dbListQuery
    exact sorted_sortLE rowKeyLE rowKeyLE_trans rowKeyLE_total _
  have hs' : (dbListQuery files B path).Pairwise (fun a b => a.key.data ≤ b.key.data) :=
    hs.imp (fun h => by simpa [rowKeyLE] using h)
  exact List.Pairwise.sublist (List.filter_sublist _) hs'

theorem mem_listFolders_iff (files : List FileRow) (B : Int) (path : String)
    (s : String) :
    s ∈ (listFiles files B path).2 ↔
      ∃ f, f ∈ files ∧ f.bucketID = B ∧ f.deleted = false ∧
        SubRem (listPre path) f s := by
  show s ∈ sortLE strDataLE (scanFolderSegs (listPre path)
    (dbListQuery files B path)).dedup ↔ _
  rw [(perm_sortLE _ _).mem_iff, List.mem_dedup, scanFolderSegs, List.mem_filterMap]
  constructor
  · rintro ⟨f, hf, hsome⟩
    rw [mem_dbListQuery] at hf
    obtain ⟨hmem, hB, hdel, _⟩ := hf
    by_cases hcond : (hasPref (listPre path) f.key.data &&
        (f.key.data.drop (listPre path).length != []) &&
        (f.key.data.drop (listPre path).length).contains '/') = true
    · rw [if_pos hcond] at hsome
      injection hsome with hs
      have hcond' := hcond
      simp only [Bool.and_eq_true, bne_iff_ne] at hcond'
      obtain ⟨⟨hpref, hne⟩, hsl⟩ := hcond'
      obtain ⟨t, ht⟩ := (hasPref_iff _ _).mp hpref
      have hdrop : f.key.data.drop (listPre path).length = t := by
        rw [ht, List.drop_left]
      refine ⟨f, hmem, hB, hdel, t, ht, ?_, ?_, ?_⟩
      · rw [← hdrop]; exact hne
      · rw [← hdrop]; exact List.elem_iff.mp hsl
      · rw [← hs, hdrop]
    · rw [if_neg hcond] at hsome
      exact absurd hsome (by simp)
  · rintro ⟨f, hmem, hB, hdel, t, ht, htne, hsl, hseg⟩
    have hdrop : f.key.data.drop (listPre path).length = t := by
      rw [ht, List.drop_left]
    refine ⟨f, ?_, ?_⟩
    · rw [mem_dbListQuery]
      exact ⟨hmem, hB, hdel, sqlCond_of_rem path f t ht htne⟩
    · have hcond : (hasPref (listPre path) f.key.data &&
          (f.key.data.drop (listPre path).length != []) &&
          (f.key.data.drop (listPre path).length).contains '/') = true := by
        simp only [Bool.and_eq_true, bne_iff_ne]
        refine ⟨⟨(hasPref_iff _ _).mpr ⟨t, ht⟩, ?_⟩, ?_⟩
        · rw [hdrop]; exact htne
        · rw [hdrop]; exact List.elem_iff.mpr hsl
      rw [if_pos hcond, hdrop, hseg]

theorem listFolders_nodup (files : List FileRow) (B : Int) (path : String) :
    (listFiles files B path).2.Nodup := by
  show (sortLE strDataLE (scanFolderSegs (listPre path)
    (dbListQuery files B path)).dedup).Nodup
  exact ((perm_sortLE strDataLE _).nodup_iff).mpr (List.nodup_dedup _)

theorem listFolders_sorted (files : List FileRow) (B : Int) (path : String) :
    ((listFiles files B path).2.map String.data).Pairwise (fun a b => a ≤ b) := by
  show ((sortLE strDataLE (scanFolderSegs (listPre path)
    (dbListQuery files B path)).dedup).map _).Pairwise _
  rw [List.pairwise_map]
  have hs := sorted_sortLE strDataLE strDataLE_trans strDataLE_total
    ((scanFolderSegs (listPre path) (dbListQuery files B path)).dedup)
  exact hs.imp (fun h => by simpa [strDataLE] using h)

theorem listFilesHandler_ok (db : Db) (clientID : String) (B : Int)
    (rawPath : String) (b : BucketRow)
    (hcid : clientID ≠ "") (hb : findBucket db B = some b)
    (hown : b.clientID = clientID) (harch : b.archived = 0) :
    listFilesHandler db (some clientID) B rawPath =
      .ok B (trimSlashes rawPath) (listFiles db.files B (trimSlashes rawPath)).1
        (listFiles db.files B (trimSlashes rawPath)).2 := by
  simp [listFilesHandler, hcid, hb, hown, harch]

/-- C3: matchesAny is true iff some pattern in the list matches, hence
false for the empty list; one pattern matches iff it is one of the
accelerators (star, star-slash-star, double star, which match every
candidate) or the anchored interpretation succeeds in which each star
matches a run of zero or more non-slash characters and every other
character matches literally; a starless pattern matches only the
identical string. -/
theorem c3_matchesAny_semantics :
    (∀ (key : String) (patterns : List String),
      matchesPublicPath key patterns = true ↔ ∃ p ∈ patterns, PatternMatchesSpec p key) ∧
    (∀ key : String, matchesPublicPath key [] = false) ∧
    (∀ (key pat : String), '*' ∉ pat.data →
      (matchPattern key pat = true ↔ key = pat)) := by
  refine ⟨?_, ?_, ?_⟩
  · intro key patterns
    simp only [matchesPublicPath, List.any_eq_true, matchPattern_iff]
  · intro key
    rfl
  · intro key pat hstar
    have hne1 : pat ≠ "*" := by
      rintro rfl
      exact hstar (by decide)
    have hne2 : pat ≠ "*/*" := by
      rintro rfl
      exact hstar (by decide)
    have hne3 : pat ≠ "**" := by
      rintro rfl
      exact hstar (by decide)
    rw [matchPattern, if_neg (by simp [hne1, hne2, hne3]), wildMatch_iff,
      wildSpec_no_star pat.data hstar key.data]
    constructor
    · intro h
      cases key
      cases pat
      exact congrArg String.mk h
    · rintro rfl
      rfl

theorem c3_matchesAny_semantics_witness :
    (∃ p ∈ ["images/*"], PatternMatchesSpec p "images/photo.jpg")
    ∧ matchesPublicPath "x/y" [] = false
    ∧ matchPattern "a.jpg" "a.jpg" = true :=
  ⟨(c3_matchesAny_semantics.1 "images/photo.jpg" ["images/*"]).mp (by decide),
   c3_matchesAny_semantics.2.1 "x/y",
   (c3_matchesAny_semantics.2.2 "a.jpg" "a.jpg" (by decide)).mpr rfl⟩

/-- C4 counterexample: the CORS origin wildcard is not the public-path
semantics: the origin https://a/b.c is allowed by the wildcard entry
https://*.c even though under the public-path interpretation the star
may not cross the slash, so that interpretation rejects this origin. -/
theorem c4_counterexample :
    isOriginAllowed "https://a/b.c" ["https://*.c"] = true
    ∧ ¬ WildSpec "https://*.c".data "https://a/b.c".data :=
  ⟨by decide, fun h => absurd ((wildMatch_iff _ _).mpr h) (by decide)⟩

/-- C4 amended: for every request origin and allowed-origins entry
containing a wildcard, the origin is allowed whenever it matches the
entry under the anchored interpretation in which each star matches a
run of zero or more arbitrary characters, the path separator included
(the literal star entry and exact equality always allow as well; the
scan is prefix, suffix, and ordered-substring based, so it can accept
slightly more than this interpretation, never less). -/
theorem c4_amended_origin_wildcard
    (origin entry : String) (allowed : List String)
    (hmem : entry ∈ allowed) (hstar : '*' ∈ entry.data)
    (hm : AnySpec entry.data origin.data) :
    isOriginAllowed origin allowed = true := by
  have hmw : matchWildcard origin.data entry.data = true := matchWildcard_complete _ _ hm
  simp only [isOriginAllowed, List.any_eq_true]
  refine ⟨entry, hmem, ?_⟩
  have hc : entry.data.contains '*' = true := List.elem_iff.mpr hstar
  simp [matchWildcardS, hc, hmw]
  exact Or.inr hstar

theorem c4_amended_origin_wildcard_witness :
    isOriginAllowed "https://app.example.com" ["https://*.example.com"] = true :=
  c4_amended_origin_wildcard "https://app.example.com" "https://*.example.com"
    ["https://*.example.com"] (by decide) (by decide)
    ((anyMatch_iff _ _).mp (by decide))

/-- C10: at the public endpoint an archived bucket yields exactly the
NotFoundError response of a nonexistent bucket, for every disk state,
directory set, request origin, and whatever public paths or CORS policy
the bucket carries: the public-path check, CORS evaluation, and file
access are never reached, so an archived bucket is indistinguishable
from an absent one. -/
theorem c10_archived_indistinguishable
    (db : Db) (disk : Disk) (dirs : List String) (bucketName filePath origin : String)
    (b : BucketRow)
    (hb : findBucketByName db bucketName = some b)
    (harch : b.archived ≠ 0) :
    servePublicFile db disk dirs bucketName filePath origin =
      .err 404 (.notFound "Bucket not found")
    ∧ ∀ (db2 : Db) (disk2 : Disk) (dirs2 : List String) (origin2 : String),
        findBucketByName db2 bucketName = none →
        servePublicFile db2 disk2 dirs2 bucketName filePath origin2 =
          .err 404 (.notFound "Bucket not found") := by
  constructor
  · simp [servePublicFile, hb, harch]
  · intro db2 disk2 dirs2 origin2 hnone
    simp [servePublicFile, hnone]

theorem c10_archived_indistinguishable_witness :
    servePublicFile c10Db ["uploads/cli/arch/a.jpg"] [] "arch" "a.jpg" "" =
      .err 404 (.notFound "Bucket not found")
    ∧ servePublicFile { buckets := [], clients := [], files := [] }
        ["uploads/cli/arch/a.jpg"] [] "arch" "a.jpg" "" =
      .err 404 (.notFound "Bucket not found") := by
  have h := c10_archived_indistinguishable c10Db ["uploads/cli/arch/a.jpg"] [] "arch"
    "a.jpg" ""
    { id := 1, name := "arch", clientID := "c1", corsPolicy := [],
      publicPaths := ["*"], archived := 1 }
    (by decide) (by decide)
  exact ⟨h.1, h.2 { buckets := [], clients := [], files := [] }
    ["uploads/cli/arch/a.jpg"] [] "" (by decide)⟩

example : listFiles [exRowY, exRowA, exRowX] 1 "" = ([exRowA], ["reports"]) := by decide

example : listFiles [exRowY, exRowA, exRowX] 1 "reports" = ([exRowX], ["2024"]) := by
  decide

example : listFiles [exRowY, exRowA, exRowX] 1 "nothing" = ([], []) := by decide

/-- C5: for every bucket and (slash-trimmed) path, the listing returns
as files exactly the non-deleted objects of the bucket whose key,
after stripping the prefix, is non-empty and contains no slash, in
ascending key order; as folders the deduplicated, sorted first
segments of the remaining matching keys; an object whose key equals
the prefix exactly is excluded; and for an owned, non-archived bucket
the handler always answers with the listing payload, so a prefix
matching no rows yields empty files and folders rather than an
error. -/
theorem c5_listing_semantics :
    (∀ (files : List FileRow) (B : Int) (path : String) (f : FileRow),
      f ∈ (listFiles files B path).1 ↔
        f ∈ files ∧ f.bucketID = B ∧ f.deleted = false ∧ DirectRem (listPre path) f) ∧
    (∀ (files : List FileRow) (B : Int) (path : String),
      ((listFiles files B path).1.map (fun f => f.key.data)).Pairwise
        (fun a b => a ≤ b)) ∧
    (∀ (files : List FileRow) (B : Int) (path : String) (s : String),
      s ∈ (listFiles files B path).2 ↔
        ∃ f, f ∈ files ∧ f.bucketID = B ∧ f.deleted = false ∧
          SubRem (listPre path) f s) ∧
    (∀ (files : List FileRow) (B : Int) (path : String),
      (listFiles files B path).2.Nodup ∧
        ((listFiles files B path).2.map String.data).Pairwise (fun a b => a ≤ b)) ∧
    (∀ (db : Db) (clientID : String) (B : Int) (rawPath : String) (b : BucketRow),
      clientID ≠ "" → findBucket db B = some b → b.clientID = clientID →
      b.archived = 0 →
      listFilesHandler db (some clientID) B rawPath =
        .ok B (trimSlashes rawPath) (listFiles db.files B (trimSlashes rawPath)).1
          (listFiles db.files B (trimSlashes rawPath)).2) :=
  ⟨mem_listFiles_iff, listFiles_files_sorted, mem_listFolders_iff,
   fun files B path => ⟨listFolders_nodup files B path, listFolders_sorted files B path⟩,
   listFilesHandler_ok⟩

theorem c5_listing_semantics_witness :
    exRowA ∈ (listFiles [exRowA, exRowX, exRowY] 1 "").1
    ∧ "reports" ∈ (listFiles [exRowA, exRowX, exRowY] 1 "").2
    ∧ listFilesHandler c5Db (some "c1") 1 "/reports/" =
        .ok 1 "reports" (listFiles c5Db.files 1 "reports").1
          (listFiles c5Db.files 1 "reports").2 := by
  refine ⟨?_, ?_, ?_⟩
  · exact (c5_listing_semantics.1 [exRowA, exRowX, exRowY] 1 "" exRowA).mpr
      ⟨by decide, by decide, by decide, "a.pdf".data, by decide, by decide, by decide⟩
  · exact (c5_listing_semantics.2.2.1 [exRowA, exRowX, exRowY] 1 "" "reports").mpr
      ⟨exRowX, by decide, by decide, by decide, "reports/x.pdf".data, by decide,
       by decide, by decide, by decide⟩
  · have h := c5_listing_semantics.2.2.2.2 c5Db "c1" 1 "/reports/"
      { id := 1, name := "buck", clientID := "c1", corsPolicy := [],
        publicPaths := [], archived := 0 }
      (by decide) (by decide) (by decide) (by decide)
    have ht : trimSlashes "/reports/" = "reports" := by decide
    rw [ht] at h
    exact h

/-- C6 counterexample: a deleteByIds request naming the same existing
id twice classifies its first occurrence as deleted (the disk file is
removed) and its second as missing (the file is then gone), so the id
appears in two output lists: the lists do not partition the requested
id set when the request carries duplicates. -/
theorem c6_counterexample :
    (deleteFilesByIDs c6Db ["uploads/cli/buck/k"]
        { rmFail := fun _ => false, updFail := fun _ => false } true "c1"
        ["a", "a"]).1 =
      .ok ["a"] ["a"] [] := by decide

/-- C6 amended: the concatenation of the deleted, missing, and failed
lists is always a permutation of the requested id list - every
requested occurrence is classified, so the failure of one target never
aborts the rest - and when the requested ids are pairwise distinct the
three lists are duplicate-free and pairwise disjoint, that is, they
partition the requested id set. -/
theorem c6_amended_partition :
    (∀ (ora : RemoveOracle) (fileIDs : List String)
        (records : String → Option String) (disk : Disk),
      (((removeFiles ora fileIDs records disk).1.1 ++
        (removeFiles ora fileIDs records disk).1.2.1) ++
        (removeFiles ora fileIDs records disk).1.2.2).Perm fileIDs) ∧
    (∀ (db : Db) (disk : Disk) (ora : RemoveOracle) (clientID : String)
        (fileIDs : List String) (d m f : List String) (disk2 : Disk),
      deleteFilesByIDs db disk ora true clientID fileIDs = (.ok d m f, disk2) →
      ((d ++ m) ++ f).Perm fileIDs ∧
      (fileIDs.Nodup → d.Nodup ∧ m.Nodup ∧ f.Nodup ∧
        d.Disjoint m ∧ d.Disjoint f ∧ m.Disjoint f)) := by
  refine ⟨removeFiles_perm, ?_⟩
  intro db disk ora clientID fileIDs d m f disk2 heq
  simp only [deleteFilesByIDs, Bool.true_eq_false, if_false, Prod.mk.injEq] at heq
  obtain ⟨h1, _⟩ := heq
  injection h1 with hd hm hf
  subst hd hm hf
  have hperm := removeFiles_perm ora fileIDs (recordsFor db clientID fileIDs) disk
  refine ⟨hperm, ?_⟩
  intro hnd
  have hnd2 := (hperm.nodup_iff).mpr hnd
  rw [List.nodup_append] at hnd2
  obtain ⟨hdm, hfN, hdisj⟩ := hnd2
  rw [List.nodup_append] at hdm
  obtain ⟨hdN, hmN, hdmdisj⟩ := hdm
  rw [List.disjoint_append_left] at hdisj
  exact ⟨hdN, hmN, hfN, hdmdisj, hdisj.1, hdisj.2⟩

theorem c6_amended_partition_witness :
    ((["a"] ++ ["b"]) ++ ([] : List String)).Perm ["a", "b"]
    ∧ (["a"] : List String).Disjoint ["b"] := by
  have h := c6_amended_partition.2 c6Db ["uploads/cli/buck/k"]
    { rmFail := fun _ => false, updFail := fun _ => false } "c1" ["a", "b"]
    ["a"] ["b"] [] [] (by decide)
  exact ⟨h.1, (h.2 (by decide)).2.2.2.1⟩

/-- C7 counterexample: for an owned, non-archived bucket whose only
key is a/x, the request path percent matches no key as a literal
prefix (no key starts with percent-slash), yet deleteFilesByPath
treats the path as an unescaped SQL LIKE pattern, matches the key, and
returns a non-empty success that deletes the file instead of the
ValidationError the claim requires. -/
theorem c7_counterexample :
    (deleteFilesByPath c7Db ["uploads/cli/buck/a/x"]
        { rmFail := fun _ => false, updFail := fun _ => false } true "c1" 1 "%").1 =
      .ok ["fa"] [] []
    ∧ (∀ f ∈ c7Db.files, hasPref ("%" ++ "/").data f.key.data = false) := by
  exact ⟨by decide, by decide⟩

/-- C7 amended: for every deleteByPath request naming a bucket that
exists, is owned by the caller (whose client row resolves), and is not
archived, the operation returns the ValidationError (no files found at
the given path) exactly when no non-deleted object of the caller in
the bucket has a key matching the SQL LIKE pattern built from the
slash-trimmed request path followed by slash-percent (percent and
underscore acting as wildcards, ASCII-case-insensitively); in that
case the state is unchanged, and otherwise the result is a success
payload, never an empty success for a no-match request. -/
theorem c7_amended_no_match_validation
    (db : Db) (disk : Disk) (ora : RemoveOracle) (clientID cn : String) (B : Int)
    (rawPath : String) (b : BucketRow)
    (hb : findBucket db B = some b) (hown : b.clientID = clientID)
    (harch : b.archived = 0) (hcn : findClientName db clientID = some cn) :
    ((deleteFilesByPath db disk ora true clientID B rawPath).1 =
        .err 400 (.validation "No files found at the given path") ↔
      ¬ ∃ f, f ∈ db.files ∧ f.bucketID = B ∧ f.clientID = clientID ∧
          f.deleted = false ∧
          likeM (trimSlashes rawPath ++ "/%").data f.key.data = true) ∧
    ((¬ ∃ f, f ∈ db.files ∧ f.bucketID = B ∧ f.clientID = clientID ∧
          f.deleted = false ∧
          likeM (trimSlashes rawPath ++ "/%").data f.key.data = true) →
      deleteFilesByPath db disk ora true clientID B rawPath =
        (.err 400 (.validation "No files found at the given path"), disk)) := by
  have hrows : pathRecordsRows db clientID B (trimSlashes rawPath) = [] ↔
      ¬ ∃ f, f ∈ db.files ∧ f.bucketID = B ∧ f.clientID = clientID ∧
        f.deleted = false ∧
        likeM (trimSlashes rawPath ++ "/%").data f.key.data = true := by
    rw [pathRecordsRows, List.filterMap_eq_nil_iff]
    constructor
    · rintro hall ⟨f, hf, hB, hcid, hdel, hlike⟩
      have hres := hall f hf
      have hcond : (f.bucketID == B && f.clientID == clientID && !f.deleted &&
          likeM (trimSlashes rawPath ++ "/%").data f.key.data) = true := by
        have hlike' : likeM ((trimSlashes rawPath).data ++ ['/', '%']) f.key.data =
            true := by simpa using hlike
        simp [hB, hcid, hdel, hlike']
      rw [if_pos hcond] at hres
      rw [hcid, hB, hcn, hb] at hres
      simp at hres
    · intro hnex f hf
      by_cases hcond : (f.bucketID == B && f.clientID == clientID && !f.deleted &&
          likeM (trimSlashes rawPath ++ "/%").data f.key.data) = true
      · exfalso
        apply hnex
        have hc := hcond
        simp only [Bool.and_eq_true, beq_iff_eq, Bool.not_eq_true'] at hc
        exact ⟨f, hf, hc.1.1.1, hc.1.1.2, hc.1.2, hc.2⟩
      · rw [if_neg hcond]
  by_cases h0 : pathRecordsRows db clientID B (trimSlashes rawPath) = []
  · have hres : deleteFilesByPath db disk ora true clientID B rawPath =
        (.err 400 (.validation "No files found at the given path"), disk) := by
      simp [deleteFilesByPath, hb, hown, harch, h0]
    refine ⟨?_, fun _ => hres⟩
    rw [hres]
    exact ⟨fun _ => hrows.mp h0, fun _ => rfl⟩
  · have hmapne : ¬((pathRecordsRows db clientID B (trimSlashes rawPath)).map
        (·.1) = []) := fun h => h0 (List.map_eq_nil_iff.mp h)
    have hok : ∃ d m f, (deleteFilesByPath db disk ora true clientID B rawPath).1 =
        .ok d m f := by
      simp [deleteFilesByPath, hb, hown, harch, hmapne]
    obtain ⟨d, m, f, hres⟩ := hok
    rw [hres]
    refine ⟨⟨fun habs => absurd habs (by simp), fun hnex => absurd (hrows.mpr hnex) h0⟩,
      fun hnex => absurd (hrows.mpr hnex) h0⟩

theorem c7_amended_no_match_validation_witness :
    deleteFilesByPath c7Db ["uploads/cli/buck/a/x"]
        { rmFail := fun _ => false, updFail := fun _ => false } true "c1" 1 "zzz" =
      (.err 400 (.validation "No files found at the given path"),
       ["uploads/cli/buck/a/x"]) := by
  have h := c7_amended_no_match_validation c7Db ["uploads/cli/buck/a/x"]
    { rmFail := fun _ => false, updFail := fun _ => false } "c1" "cli" 1 "zzz"
    { id := 1, name := "buck", clientID := "c1", corsPolicy := [],
      publicPaths := [], archived := 0 }
    (by decide) (by decide) (by decide) (by decide)
  exact h.2 (by decide)

example : matchWildcardS "https://a/b.example.com" "https://*.example.com" = true := by decide

example : isOriginAllowed "https://x.com" [] = false := by decide

example : matchPattern "images/photo.jpg" "images/*" = true := by decide

example : matchPattern "images/sub/photo.jpg" "images/*" = false := by decide

example : matchPattern "a.jpg" "*.jpg" = true := by decide

example : matchPattern "any/deep/path" "**" = true := by decide

example : goClean "a//b" = "a/b" := by decide

example : goClean "./a" = "a" := by decide

example : goClean "a/b/../c" = "a/c" := by decide

example : goClean "a/.." = "." := by decide

example : goClean "../../x" = "../../x" := by decide

example : goJoin3 "cli" "buck" "x//y" = "cli/buck/x/y" := by decide

example : goJoin3 "cli" "buck" "inv/2024/r.pdf" = "cli/buck/inv/2024/r.pdf" := by decide

example : goJoin2 "./uploads" "c/b/k.txt" = "uploads/c/b/k.txt" := by decide

example : trimSlashes "/a/b/" = "a/b" := by decide

end FUS
